import Mathlib

/-!
Shallow embedding of the localbase local-first data layer
(`src/core/database.ts`, `src/core/table.ts`, `src/core/query.ts`,
`src/sync/change-tracker.ts`, `src/sync/conflict-resolver.ts`,
`src/sync/sync-engine.ts`, `src/sync/supabase-adapter.ts`).

Modelling conventions, fixed once here:
* JavaScript field values are modelled by `Value` (undefined, null, number,
  string, boolean).  Record objects are association lists `Record` of
  field-name/value pairs.  Machine numbers are modelled as `Int` (the code
  only ever compares and subtracts timestamps; no overflow-sensitive
  arithmetic occurs).
* Asynchronous methods are modelled as pure state transformers; fallible
  methods return `Except Err _`.  The single-threaded cooperative scheduler
  means each engine-level call runs to completion, so the `isSyncing` flag
  is simply threaded through the state.
* The remote backend (Supabase client) is an external collaborator; it is
  modelled by a `RemoteEnv` of response functions, and every outgoing call
  is recorded in a `List RemoteCall` trace.
* Change-record ids are `${Date.now()}-${Math.random()}` strings in the
  source, used only as unique keys of the `_changes` store; they are
  modelled as a `Nat` counter (`DB.nextId`).  `Date.now()` is modelled by
  the clock field `DB.now`.
* The `_changes` store is guaranteed to exist by `Database.open`
  (`initMetadataStores`); `ChangeTracker`'s explicit
  `objectStoreNames.contains` checks are modelled by the flag
  `DB.hasChangesStore`.
* Composite (array) key paths and IndexedDB per-store key generators are
  not exercised by any claim; key paths are modelled as `Option String`
  and the auto-increment generator as a database-wide counter.
-/

deriving instance DecidableEq for Except

namespace Localbase

/-- A JavaScript value as stored in a record field. -/
inductive Value where
  | undefined : Value
  | null : Value
  | num : Int → Value
  | str : String → Value
  | bool : Bool → Value
deriving Repr, DecidableEq

/-- A record: an object, as an association list of field/value pairs. -/
abbrev Record := List (String × Value)

/-- Property read `r[f]`: the value of field `f`, or `undefined`. -/
def getField (r : Record) (f : String) : Value :=
  match r.lookup f with
  | some v => v
  | none => .undefined

/-- Object spread update `{...r, [f]: v}`: overwrite `f` in place if present,
else append it. -/
def setField (r : Record) (f : String) (v : Value) : Record :=
  if (r.lookup f).isSome then
    r.map (fun p => if p.1 = f then (f, v) else p)
  else r ++ [(f, v)]

/-- JavaScript truthiness of a field value. -/
def truthy : Value → Bool
  | .undefined => false
  | .null => false
  | .num n => n != 0
  | .str s => s != ""
  | .bool b => b

/-- `record.id !== undefined && record.id !== null`: the defined primary-key
value of a record's `id` field, if any. -/
def definedId (r : Record) : Option Value :=
  match getField r "id" with
  | .undefined => none
  | .null => none
  | v => some v

/-- Errors surfaced by the local layer (`src/utils`, `src/core`,
`src/sync/change-tracker.ts`). -/
inductive Err where
  /-- `serializeKey`: "Key cannot be null or undefined". -/
  | invalidKey : Err
  /-- IndexedDB `DataError` (bad key / key-path combination). -/
  | dataError : Err
  /-- IndexedDB `ConstraintError`: `add` against an existing key. -/
  | duplicateKey : Err
  /-- `Table.update`: "Item with key ... not found". -/
  | notFound : Err
  /-- `ChangeTracker`: "Metadata store _changes not found ... upgraded". -/
  | upgradeRequired : Err
deriving Repr, DecidableEq

/-- `serializeKey` (`src/utils/serialization.ts`): throws on null/undefined,
otherwise a valid key (primitive keys pass through unchanged). -/
def serializeKey (k : Value) : Except Err Value :=
  match k with
  | .undefined => .error .invalidKey
  | .null => .error .invalidKey
  | v => .ok v

/-- Mutation kind of a change-log entry. -/
inductive Op where
  | create : Op
  | update : Op
  | delete : Op
deriving Repr, DecidableEq

/-- `ChangeRecord` (`src/types/index.ts`): one durable log entry per local
mutation. -/
structure ChangeRecord where
  id : Nat
  table : String
  key : Value
  operation : Op
  data : Option Record
  timestamp : Nat
  synced : Bool
deriving Repr, DecidableEq

/-- The persistent local database: the application object stores, the
`_changes` change-log store, and the model's id/clock sources. -/
structure DB where
  /-- Store name → rows (key ↦ record), in insertion order. -/
  stores : List (String × List (Value × Record))
  /-- Contents of the `_changes` store, in insertion order. -/
  changes : List ChangeRecord
  /-- Whether `objectStoreNames.contains "_changes"` holds. -/
  hasChangesStore : Bool
  /-- Fresh-id source for change records. -/
  nextId : Nat
  /-- Key-generator counter for auto-increment stores. -/
  nextAuto : Nat
  /-- The current clock (`Date.now()`), in epoch milliseconds. -/
  now : Nat
deriving Repr, DecidableEq

/-- Rows of one object store. -/
def rowsOf (db : DB) (store : String) : List (Value × Record) :=
  (db.stores.lookup store).getD []

/-- Replace the rows of one object store. -/
def setRows (db : DB) (store : String) (rows : List (Value × Record)) : DB :=
  { db with
    stores :=
      if (db.stores.lookup store).isSome then
        db.stores.map (fun p => if p.1 = store then (store, rows) else p)
      else db.stores ++ [(store, rows)] }

/-- IndexedDB `put` at row level: replace the record at the key in place,
or append a new row. -/
def upsertRow (rows : List (Value × Record)) (k : Value) (r : Record) :
    List (Value × Record) :=
  if (rows.lookup k).isSome then
    rows.map (fun p => if p.1 = k then (k, r) else p)
  else rows ++ [(k, r)]

/-- `Database.trackChange` (`src/core/database.ts`): append one
`ChangeRecord` with a fresh id, the current timestamp and `synced = false`
to the `_changes` store. -/
def trackChange (db : DB) (table : String) (key : Value) (op : Op)
    (data : Option Record) : DB :=
  { db with
    changes := db.changes ++
      [{ id := db.nextId, table := table, key := key, operation := op,
         data := data, timestamp := db.now, synced := false }],
    nextId := db.nextId + 1 }

/-- The schema-derived identity of one table (`Database.createTables`
passes the parsed key path; the change recorder is always attached). -/
structure TableDef where
  name : String
  keyPath : Option String
  autoIncrement : Bool
deriving Repr, DecidableEq

namespace Table

/-- `Table.getKeyFromItem`: the value of the key-path field of an item
(`undefined` when the store has out-of-line keys). -/
def getKeyFromItem (t : TableDef) (item : Record) : Value :=
  match t.keyPath with
  | none => .undefined
  | some kp => getField item kp

/-- `Table.get`: serialize the key and look it up in the store. -/
def get (t : TableDef) (db : DB) (key : Value) : Except Err (Option Record) := do
  let sk ← serializeKey key
  return (rowsOf db t.name).lookup sk

/-- `Table.getAll` with no key filter: every record in the store. -/
def getAll (t : TableDef) (db : DB) : List Record :=
  (rowsOf db t.name).map (·.2)

/-- IndexedDB `add` request semantics for this store: in-line keys are
extracted from the item (or generated), an explicit key is only legal for
out-of-line stores, and an existing key is a `ConstraintError`.  Returns
the updated database and the resulting key. -/
def idbAdd (t : TableDef) (db : DB) (item : Record) (key? : Option Value) :
    Except Err (DB × Value) :=
  match t.keyPath with
  | some kp =>
    match key? with
    | some _ => .error .dataError
    | none =>
      match getField item kp with
      | .undefined =>
        if t.autoIncrement then
          let k : Value := .num db.nextAuto
          let stored := setField item kp k
          if ((rowsOf db t.name).lookup k).isSome then .error .duplicateKey
          else
            .ok (setRows { db with nextAuto := db.nextAuto + 1 } t.name
                  (rowsOf db t.name ++ [(k, stored)]), k)
        else .error .dataError
      | k =>
        if ((rowsOf db t.name).lookup k).isSome then .error .duplicateKey
        else .ok (setRows db t.name (rowsOf db t.name ++ [(k, item)]), k)
  | none =>
    match key? with
    | some k =>
      if ((rowsOf db t.name).lookup k).isSome then .error .duplicateKey
      else .ok (setRows db t.name (rowsOf db t.name ++ [(k, item)]), k)
    | none => .error .dataError

/-- IndexedDB `put` request semantics for this store: like `idbAdd` but an
existing key is overwritten instead of erroring. -/
def idbPut (t : TableDef) (db : DB) (item : Record) (key? : Option Value) :
    Except Err (DB × Value) :=
  match t.keyPath with
  | some kp =>
    match key? with
    | some _ => .error .dataError
    | none =>
      match getField item kp with
      | .undefined =>
        if t.autoIncrement then
          let k : Value := .num db.nextAuto
          let stored := setField item kp k
          .ok (setRows { db with nextAuto := db.nextAuto + 1 } t.name
                (upsertRow (rowsOf db t.name) k stored), k)
        else .error .dataError
      | k => .ok (setRows db t.name (upsertRow (rowsOf db t.name) k item), k)
  | none =>
    match key? with
    | some k => .ok (setRows db t.name (upsertRow (rowsOf db t.name) k item), k)
    | none => .error .dataError

/-- `Table.add` (`src/core/table.ts`): perform the store `add`, then record
exactly one `create` change, with the key taken from the add result, the
explicit key, or the item, and (for string key paths) spliced into the
tracked data. -/
def add (t : TableDef) (db : DB) (item : Record) (key? : Option Value) :
    Except Err (DB × Value) := do
  let serialized? ← match key? with
    | some k => do let sk ← serializeKey k; pure (some sk)
    | none => pure none
  let (db1, result) ← idbAdd t db item serialized?
  let itemKey :=
    if t.keyPath.isSome && key?.isNone then result
    else match key? with
      | some k => k
      | none => getKeyFromItem t item
  let itemWithKey :=
    match t.keyPath with
    | some kp => setField item kp itemKey
    | none => item
  return (trackChange db1 t.name itemKey .create (some itemWithKey), result)

/-- `Table.put` (`src/core/table.ts`): upsert; for in-line-key stores the
explicit key parameter is ignored, otherwise it is serialized and passed
when it is neither `undefined` nor `null`.  Records exactly one `update`
change keyed by the item's own key field. -/
def put (t : TableDef) (db : DB) (item : Record) (key? : Option Value) :
    Except Err (DB × Value) := do
  let (db1, result) ←
    if t.keyPath.isSome then
      idbPut t db item none
    else
      match key? with
      | some .null => idbPut t db item none
      | some k => do
        let sk ← serializeKey k
        idbPut t db item (some sk)
      | none => idbPut t db item none
  let itemKey := getKeyFromItem t item
  return (trackChange db1 t.name itemKey .update (some item), result)

/-- Object spread merge `{...existing, ...changes}`. -/
def mergeRecords (existing changes : Record) : Record :=
  changes.foldl (fun acc p => setField acc p.1 p.2) existing

/-- `Table.update` (`src/core/table.ts`): read the existing record, throw
`notFound` when absent, merge the partial changes over it, and `put` the
merged record (passing the key separately only for out-of-line stores). -/
def update (t : TableDef) (db : DB) (key : Value) (changes : Record) :
    Except Err (DB × Value) := do
  let existing? ← get t db key
  match existing? with
  | none => .error .notFound
  | some existing =>
    let updated := mergeRecords existing changes
    if t.keyPath.isSome then put t db updated none
    else put t db updated (some key)

/-- `Table.delete` (`src/core/table.ts`): delete the serialized key from
the store, then record exactly one `delete` change (keyed by the original
key, with no data). -/
def delete (t : TableDef) (db : DB) (key : Value) : Except Err DB := do
  let sk ← serializeKey key
  let db1 := setRows db t.name ((rowsOf db t.name).filter (fun p => p.1 ≠ sk))
  return trackChange db1 t.name key .delete none

/-- `Table.bulkAdd`: `add` each item in turn (no explicit keys). -/
def bulkAdd (t : TableDef) : DB → List Record → Except Err (DB × List Value)
  | db, [] => .ok (db, [])
  | db, item :: rest => do
    let (db1, k) ← add t db item none
    let (db2, ks) ← bulkAdd t db1 rest
    return (db2, k :: ks)

/-- `Table.bulkPut`: `put` each item in turn (no explicit keys). -/
def bulkPut (t : TableDef) : DB → List Record → Except Err (DB × List Value)
  | db, [] => .ok (db, [])
  | db, item :: rest => do
    let (db1, k) ← put t db item none
    let (db2, ks) ← bulkPut t db1 rest
    return (db2, k :: ks)

/-- `Table.bulkDelete`: `delete` each key in turn. -/
def bulkDelete (t : TableDef) : DB → List Value → Except Err DB
  | db, [] => .ok db
  | db, key :: rest => do
    let db1 ← delete t db key
    bulkDelete t db1 rest

end Table

namespace ChangeTracker

/-- `ChangeTracker.getPendingChanges` (`src/sync/change-tracker.ts`): throws
the upgrade-required error when the `_changes` store is absent; otherwise
all entries with `synced = false`, optionally restricted to one table. -/
def getPendingChanges (db : DB) (table : Option String) :
    Except Err (List ChangeRecord) :=
  if !db.hasChangesStore then .error .upgradeRequired
  else
    let changes := db.changes.filter (fun c => !c.synced)
    match table with
    | some t => .ok (changes.filter (fun c => c.table = t))
    | none => .ok changes

/-- Set `synced := true` on an entry when its id is among `ids`. -/
def markIf (ids : List Nat) (c : ChangeRecord) : ChangeRecord :=
  if c.id ∈ ids then { c with synced := true } else c

/-- `ChangeTracker.markAsSynced`: throws when the `_changes` store is
absent; otherwise marks the entry with that id (a missing id is a no-op). -/
def markAsSynced (db : DB) (changeId : Nat) : Except Err DB :=
  if !db.hasChangesStore then .error .upgradeRequired
  else .ok { db with changes := db.changes.map (markIf [changeId]) }

/-- `ChangeTracker.markMultipleAsSynced`: throws when the `_changes` store
is absent; otherwise marks every entry whose id is listed (missing ids are
no-ops). -/
def markMultipleAsSynced (db : DB) (changeIds : List Nat) : Except Err DB :=
  if !db.hasChangesStore then .error .upgradeRequired
  else .ok { db with changes := db.changes.map (markIf changeIds) }

/-- `ChangeTracker.clearSyncedChanges`: silently a no-op when the
`_changes` store is absent ("No store, nothing to clear"); otherwise
deletes exactly the entries with `synced = true`. -/
def clearSyncedChanges (db : DB) : Except Err DB :=
  if !db.hasChangesStore then .ok db
  else .ok { db with changes := db.changes.filter (fun c => !(c.synced = true)) }

/-- `ChangeTracker.getChangesByTable`: silently returns the empty list when
the `_changes` store is absent ("No store, return empty array"); otherwise
every entry (synced or not) for the table. -/
def getChangesByTable (db : DB) (table : String) :
    Except Err (List ChangeRecord) :=
  if !db.hasChangesStore then .ok []
  else .ok (db.changes.filter (fun c => c.table = table))

end ChangeTracker

/-- `Conflict` (`src/types/index.ts`): a transient divergence between the
local and remote version of one keyed record.  (`local` is a Lean keyword,
so the field is named `localRec`.) -/
structure Conflict where
  localRec : Record
  remote : Record
  table : String
  key : Value
  localTimestamp : Int
  remoteTimestamp : Int
deriving Repr, DecidableEq

/-- A conflict-resolution strategy (`src/types/index.ts`); the custom
strategy is a caller-supplied function from the conflict to the record to
keep. -/
inductive Strategy where
  | lastWriteWins : Strategy
  | localWins : Strategy
  | remoteWins : Strategy
  | custom : (Conflict → Record) → Strategy

namespace ConflictResolver

/-- `new Date(x).getTime()` for the timestamp values the model stores:
timestamps are epoch-millisecond numbers. -/
def toTime : Value → Int
  | .num n => n
  | _ => 0

/-- The timestamp of a record in `detectConflict`: the truthy `updated_at`
field, else the truthy `created_at` field, else `Date.now()`. -/
def timestampOf (r : Record) (now : Int) : Int :=
  if truthy (getField r "updated_at") then toTime (getField r "updated_at")
  else if truthy (getField r "created_at") then toTime (getField r "created_at")
  else now

/-- `ConflictResolver.detectConflict` (`src/sync/conflict-resolver.ts`):
a `Conflict` exactly when the two derived timestamps differ by more than
the 1000 ms threshold. -/
def detectConflict (localRec remote : Record) (table : String) (key : Value)
    (now : Int) : Option Conflict :=
  let localTimestamp := timestampOf localRec now
  let remoteTimestamp := timestampOf remote now
  if (localTimestamp - remoteTimestamp).natAbs > 1000 then
    some { localRec := localRec, remote := remote, table := table, key := key,
           localTimestamp := localTimestamp,
           remoteTimestamp := remoteTimestamp }
  else none

/-- `ConflictResolver.resolve` (`src/sync/conflict-resolver.ts`): the
record kept for each strategy; `last-write-wins` keeps remote exactly when
its timestamp is strictly greater (and is also the default for an
unrecognized strategy string, a case the `Strategy` type cannot express). -/
def resolve (c : Conflict) (strategy : Strategy) : Record :=
  match strategy with
  | .custom f => f c
  | .lastWriteWins =>
    if c.remoteTimestamp > c.localTimestamp then c.remote else c.localRec
  | .localWins => c.localRec
  | .remoteWins => c.remote

end ConflictResolver

/-! ### Query engine (`src/core/query.ts`) -/

/-- JavaScript `a < b` restricted to the same-typed comparisons the query
layer is used with (numbers with numbers, strings with strings); mixed-type
coercions are outside every claim and modelled as false. -/
def jsLt : Value → Value → Bool
  | .num a, .num b => a < b
  | .str a, .str b => a < b
  | _, _ => false

/-- JavaScript `a > b`, under the same restriction as `jsLt`. -/
def jsGt : Value → Value → Bool
  | .num a, .num b => a > b
  | .str a, .str b => a > b
  | _, _ => false

/-- JavaScript `String(v)`. -/
def valueToString : Value → String
  | .undefined => "undefined"
  | .null => "null"
  | .num n => toString n
  | .str s => s
  | .bool b => if b then "true" else "false"

/-- One where-clause condition (`WhereClause` of `src/core/query.ts`,
with the `operator`/`value` pair flattened per operator; the compiled
`RegExp.test` of `matches` is modelled as the string predicate the regular
expression denotes). -/
inductive WhereCond where
  | eq : Value → WhereCond
  | gt : Value → WhereCond
  | ge : Value → WhereCond
  | lt : Value → WhereCond
  | le : Value → WhereCond
  | ne : Value → WhereCond
  | between : Value → Value → WhereCond
  | startsWith : String → WhereCond
  | matches : (String → Bool) → WhereCond

/-- A where-clause: a field and a condition on it. -/
structure WhereClause where
  field : String
  cond : WhereCond

/-- Sort direction. -/
inductive Dir where
  | asc : Dir
  | desc : Dir
deriving Repr, DecidableEq

/-- `Query` builder state (`src/core/query.ts`). -/
structure Query where
  whereClauses : List WhereClause
  filterPredicate : Option (Record → Bool)
  sortField : Option String
  sortDirection : Dir
  limitCount : Option Nat
  offsetCount : Nat

namespace Query

/-- `Query.limit`. -/
def limit (q : Query) (count : Nat) : Query := { q with limitCount := some count }

/-- `Query.offset`. -/
def offset (q : Query) (count : Nat) : Query := { q with offsetCount := count }

/-- `Query.sort`. -/
def sort (q : Query) (field : String) (direction : Dir) : Query :=
  { q with sortField := some field, sortDirection := direction }

/-- `Query.applyWhereClause`: filter the results by one clause's predicate. -/
def applyWhereClause (results : List Record) (clause : WhereClause) :
    List Record :=
  results.filter (fun item =>
    let fieldValue := getField item clause.field
    match clause.cond with
    | .eq v => fieldValue = v
    | .gt v => jsGt fieldValue v
    | .ge v => fieldValue = v || jsGt fieldValue v
    | .lt v => jsLt fieldValue v
    | .le v => fieldValue = v || jsLt fieldValue v
    | .ne v => fieldValue ≠ v
    | .between lo hi =>
      (fieldValue = lo || jsGt fieldValue lo) &&
      (fieldValue = hi || jsLt fieldValue hi)
    | .startsWith s => (valueToString fieldValue).startsWith s
    | .matches p => p (valueToString fieldValue))

/-- The sort comparator built in `Query.toArray`:
`aVal < bVal ? -1 : aVal > bVal ? 1 : 0`, negated for descending order;
`Array.prototype.sort` is stable, so the model sorts with a stable merge
sort on "compares ≤ 0". -/
def sortLe (field : String) (direction : Dir) (a b : Record) : Bool :=
  let aVal := getField a field
  let bVal := getField b field
  let comparison : Int := if jsLt aVal bVal then -1 else if jsGt aVal bVal then 1 else 0
  match direction with
  | .asc => comparison ≤ 0
  | .desc => -comparison ≤ 0

/-- `Query.toArray` (`src/core/query.ts`), from the store scan result on:
apply each where-clause in order, then the custom filter predicate, then
the single-field sort, then `slice(offset)`, then `slice(0, limit)`. -/
def toArray (q : Query) (scan : List Record) : List Record :=
  let results := q.whereClauses.foldl applyWhereClause scan
  let results :=
    match q.filterPredicate with
    | some p => results.filter p
    | none => results
  let results :=
    match q.sortField with
    | some field => results.mergeSort (sortLe field q.sortDirection)
    | none => results
  let results := if q.offsetCount > 0 then results.drop q.offsetCount else results
  let results :=
    match q.limitCount with
    | some n => results.take n
    | none => results
  results

/-- `Query.first`: run the query with `limit(1)` and take the head. -/
def first (q : Query) (scan : List Record) : Option Record :=
  ((q.limit 1).toArray scan).head?

/-- `Query.count`: the length of the fully materialized result. -/
def count (q : Query) (scan : List Record) : Nat :=
  (q.toArray scan).length

end Query

/-! ### Sync engine (`src/sync/sync-engine.ts`, `src/sync/supabase-adapter.ts`) -/

/-- One outgoing call to the remote backend. -/
inductive RemoteCall where
  | upsert : String → List Record → RemoteCall
  | deleteKeys : String → List Value → RemoteCall
  | selectSince : String → Option Nat → RemoteCall
deriving Repr, DecidableEq

/-- The remote backend's behaviour (the Supabase client is an external
collaborator): whether each upsert/delete succeeds, and what each select
returns (or that it errors). -/
structure RemoteEnv where
  upsertOk : String → Bool
  deleteOk : String → Bool
  pullData : String → Option Nat → Except Unit (List Record)

/-- The sync-relevant configuration (`SupabaseConfig`): the local → remote
table mapping in `Object.entries` order, and the conflict strategy. -/
structure SyncConfig where
  tables : List (String × String)
  resolution : Strategy

/-- `SupabaseAdapter.getSupabaseTableName`:
`this.tableMapping[localTableName] || localTableName` (an empty mapped name
is falsy and falls back). -/
def getSupabaseTableName (cfg : SyncConfig) (localTableName : String) : String :=
  match cfg.tables.lookup localTableName with
  | some s => if s = "" then localTableName else s
  | none => localTableName

namespace SupabaseAdapter

/-- `SupabaseAdapter.push`: returns early with no remote call when the
record list is empty, otherwise one batch upsert keyed by `id`. -/
def push (env : RemoteEnv) (cfg : SyncConfig) (tableName : String)
    (records : List Record) : List RemoteCall × Bool :=
  let supabaseTableName := getSupabaseTableName cfg tableName
  if records.length = 0 then ([], true)
  else ([.upsert supabaseTableName records], env.upsertOk supabaseTableName)

/-- `SupabaseAdapter.delete`: returns early with no remote call when the
key list is empty, otherwise one `delete ... in (keys)` call. -/
def delete (env : RemoteEnv) (cfg : SyncConfig) (tableName : String)
    (keys : List Value) : List RemoteCall × Bool :=
  let supabaseTableName := getSupabaseTableName cfg tableName
  if keys.length = 0 then ([], true)
  else ([.deleteKeys supabaseTableName keys], env.deleteOk supabaseTableName)

end SupabaseAdapter

/-- `Map.set` over an association list: replace the value in place when the
key exists (keeping the key's first-insertion position), else append. -/
def dedupInsert (m : List (Value × Record)) (k : Value) (r : Record) :
    List (Value × Record) :=
  if (m.lookup k).isSome then m.map (fun p => if p.1 = k then (k, r) else p)
  else m ++ [(k, r)]

/-- One step of the `recordsMap` builds in `pushTableChanges` / `pushAll`:
`if (record.id !== undefined && record.id !== null) recordsMap.set(record.id, record)`. -/
def insertById (m : List (Value × Record)) (r : Record) : List (Value × Record) :=
  match definedId r with
  | some k => dedupInsert m k r
  | none => m

/-- `SyncMetadata` (`src/types/index.ts`), as written by the sync engine. -/
inductive SyncStatus where
  | idle : SyncStatus
  | syncing : SyncStatus
  | error : SyncStatus
deriving Repr, DecidableEq

/-- Per-table sync metadata row of the `_metadata` store. -/
structure SyncMetadata where
  table : String
  lastSyncTimestamp : Nat
  pendingChanges : Nat
  syncStatus : SyncStatus
deriving Repr, DecidableEq

/-- The sync engine's state: the local database, the `_metadata` store, and
the process-wide `isSyncing` guard. -/
structure EngineState where
  db : DB
  meta : List (String × SyncMetadata)
  isSyncing : Bool
deriving Repr, DecidableEq

/-- `setSyncMetadata` (`src/utils/metadata.ts`): upsert the row keyed by
table name. -/
def setSyncMetadata (s : EngineState) (m : SyncMetadata) : EngineState :=
  { s with
    meta :=
      if (s.meta.lookup m.table).isSome then
        s.meta.map (fun p => if p.1 = m.table then (m.table, m) else p)
      else s.meta ++ [(m.table, m)] }

namespace SyncEngine

/-- Result of one `pushTableChanges` call: the database afterwards, the
remote calls made, and whether it returned normally (`ok = false` models
the rethrown exception). -/
structure PushResult where
  db : DB
  calls : List RemoteCall
  ok : Bool
deriving Repr, DecidableEq

/-- `SyncEngine.pushTableChanges`: partition the batch into creates,
updates and deletes; deduplicate creates-then-updates by `record.id`
(dropping records with no defined id); send one combined upsert (when any
creates or updates exist) and one delete call (when any deletes exist);
mark the whole batch synced only after both remote calls succeed; any
failure is rethrown with nothing marked. -/
def pushTableChanges (env : RemoteEnv) (cfg : SyncConfig) (tableName : String)
    (changes : List ChangeRecord) (db : DB) : PushResult :=
  let creates := (changes.filter (fun c => c.operation = .create)).map
    (fun c => c.data.getD [])
  let updates := (changes.filter (fun c => c.operation = .update)).map
    (fun c => c.data.getD [])
  let deletes := (changes.filter (fun c => c.operation = .delete)).map (fun c => c.key)
  let recordsMap := updates.foldl insertById (creates.foldl insertById [])
  let recordsToPush := recordsMap.map (fun p => p.2)
  let (upsertCalls, upsertOk) :=
    if creates.length > 0 || updates.length > 0 then
      SupabaseAdapter.push env cfg tableName recordsToPush
    else ([], true)
  if !upsertOk then ⟨db, upsertCalls, false⟩
  else
    let (deleteCalls, deleteOk) :=
      if deletes.length > 0 then SupabaseAdapter.delete env cfg tableName deletes
      else ([], true)
    if !deleteOk then ⟨db, upsertCalls ++ deleteCalls, false⟩
    else
      match ChangeTracker.markMultipleAsSynced db (changes.map (fun c => c.id)) with
      | .ok db1 => ⟨db1, upsertCalls ++ deleteCalls, true⟩
      | .error _ => ⟨db, upsertCalls ++ deleteCalls, false⟩

/-- The key order of the `changesByTable` map built in `push` (a JS `Map`
iterates keys in first-insertion order). -/
def tableOrder (pending : List ChangeRecord) : List String :=
  pending.foldl (fun acc c => if c.table ∈ acc then acc else acc ++ [c.table]) []

/-- The per-table batch of the `changesByTable` map: the pending changes of
that table, in pending order. -/
def batchOf (pending : List ChangeRecord) (t : String) : List ChangeRecord :=
  pending.filter (fun c => c.table = t)

/-- The `for (const [tableName, changes] of changesByTable)` loop of
`push`: `pushTableChanges` per table, in map order; an exception stops the
loop and propagates. -/
def pushLoop (env : RemoteEnv) (cfg : SyncConfig) (pending : List ChangeRecord) :
    List String → DB → DB × List RemoteCall × Bool
  | [], db => (db, [], true)
  | t :: ts, db =>
    let r := pushTableChanges env cfg t (batchOf pending t) db
    if r.ok then
      let (db1, calls, ok) := pushLoop env cfg pending ts r.db
      (db1, r.calls ++ calls, ok)
    else (r.db, r.calls, false)

/-- `SyncEngine.push`: a silent no-op while `isSyncing`; otherwise read all
pending changes (the structural error propagates as `ok = false`), return
early when there are none, else group by table and push each group. -/
def push (env : RemoteEnv) (cfg : SyncConfig) (s : EngineState) :
    EngineState × List RemoteCall × Bool :=
  if s.isSyncing then (s, [], true)
  else
    match ChangeTracker.getPendingChanges s.db none with
    | .error _ => (s, [], false)
    | .ok pending =>
      if pending.length = 0 then (s, [], true)
      else
        let (db1, calls, ok) := pushLoop env cfg pending (tableOrder pending) s.db
        ({ s with db := db1 }, calls, ok)

/-- The body of the `for (const record of remoteData)` loop of `pull`: read
the local record with the same key; on a detected conflict write the
resolved record, otherwise write the remote record — in every branch
through `Table.put` of a change-tracked table. -/
def applyRemoteRecord (strategy : Strategy) (t : TableDef) (db : DB)
    (record : Record) : Except Err DB := do
  let local? ← Table.get t db (getField record "id")
  match local? with
  | some localRec =>
    match ConflictResolver.detectConflict localRec record t.name
        (getField record "id") (db.now : Int) with
    | some conflict =>
      let resolved := ConflictResolver.resolve conflict strategy
      let (db1, _) ← Table.put t db resolved none
      return db1
    | none =>
      let (db1, _) ← Table.put t db record none
      return db1
  | none =>
    let (db1, _) ← Table.put t db record none
    return db1

/-- The remote-record loop of `pull` for one table; an error stops the loop
keeping the writes already made (it is caught by the per-table handler). -/
def applyRemoteRecords (strategy : Strategy) (t : TableDef) :
    DB → List Record → DB × Bool
  | db, [] => (db, true)
  | db, record :: rest =>
    match applyRemoteRecord strategy t db record with
    | .ok db1 => applyRemoteRecords strategy t db1 rest
    | .error _ => (db, false)

/-- The `catch` branch of `pull`'s per-table loop: write `error` metadata
preserving the previous `lastSyncTimestamp`; when even the pending-change
count cannot be read (no `_changes` store) the metadata write itself
throws and is only logged. -/
def setErrorMeta (s : EngineState) (localTable : String) : EngineState :=
  match ChangeTracker.getPendingChanges s.db none with
  | .error _ => s
  | .ok pending =>
    setSyncMetadata s
      { table := localTable,
        lastSyncTimestamp :=
          ((s.meta.lookup localTable).map (fun m => m.lastSyncTimestamp)).getD 0,
        pendingChanges := (pending.filter (fun c => c.table = localTable)).length,
        syncStatus := .error }

/-- One iteration of `pull`'s table loop: read the last-sync timestamp
(0 is falsy, so no since-filter then), select the remote records, apply
each of them locally, and write `idle` metadata with a fresh timestamp —
or `error` metadata on any failure.  `kp`/`ai` give each table's parsed
key path and auto-increment flag (`Database.table`). -/
def pullTable (env : RemoteEnv) (cfg : SyncConfig) (strategy : Strategy)
    (kp : String → Option String) (ai : String → Bool)
    (s : EngineState) (localTable : String) : EngineState × List RemoteCall :=
  let lastSync := (s.meta.lookup localTable).map (fun m => m.lastSyncTimestamp)
  let since : Option Nat :=
    match lastSync with
    | some ts => if ts ≠ 0 then some ts else none
    | none => none
  let sName := getSupabaseTableName cfg localTable
  let call := RemoteCall.selectSince sName since
  match env.pullData sName since with
  | .error _ => (setErrorMeta s localTable, [call])
  | .ok remoteData =>
    let t : TableDef := ⟨localTable, kp localTable, ai localTable⟩
    let (db1, applied) := applyRemoteRecords strategy t s.db remoteData
    let s1 := { s with db := db1 }
    if !applied then (setErrorMeta s1 localTable, [call])
    else
      match ChangeTracker.getPendingChanges db1 none with
      | .error _ => (setErrorMeta s1 localTable, [call])
      | .ok pending =>
        (setSyncMetadata s1
          { table := localTable, lastSyncTimestamp := db1.now,
            pendingChanges :=
              (pending.filter (fun c => c.table = localTable)).length,
            syncStatus := .idle }, [call])

/-- The `for (const [localTable, supabaseTable] of Object.entries(...))`
loop of `pull`: every table is processed regardless of earlier failures. -/
def pullLoop (env : RemoteEnv) (cfg : SyncConfig) (strategy : Strategy)
    (kp : String → Option String) (ai : String → Bool) :
    EngineState → List (String × String) → EngineState × List RemoteCall
  | s, [] => (s, [])
  | s, (localTable, _) :: rest =>
    let (s1, calls) := pullTable env cfg strategy kp ai s localTable
    let (s2, more) := pullLoop env cfg strategy kp ai s1 rest
    (s2, calls ++ more)

/-- `SyncEngine.pull`: a silent no-op while `isSyncing`; otherwise the
per-table loop, which never throws (every failure is isolated per table). -/
def pull (env : RemoteEnv) (cfg : SyncConfig) (strategy : Strategy)
    (kp : String → Option String) (ai : String → Bool) (s : EngineState) :
    EngineState × List RemoteCall × Bool :=
  if s.isSyncing then (s, [], true)
  else
    let (s1, calls) := pullLoop env cfg strategy kp ai s cfg.tables
    (s1, calls, true)

/-- `SyncEngine.full`: `pull` then `push`, in that order. -/
def full (env : RemoteEnv) (cfg : SyncConfig) (strategy : Strategy)
    (kp : String → Option String) (ai : String → Bool) (s : EngineState) :
    EngineState × List RemoteCall × Bool :=
  let (s1, calls1, ok1) := pull env cfg strategy kp ai s
  let (s2, calls2, ok2) := push env cfg s1
  (s2, calls1 ++ calls2, ok1 && ok2)

/-- One iteration of `pushAll`'s table loop: read every record of the local
table, deduplicate by defined `id` keeping the last record seen, upsert the
full set, then mark any pending changes of the table synced. -/
def pushAllTable (env : RemoteEnv) (cfg : SyncConfig) (db : DB)
    (localTable : String) : DB × List RemoteCall × Bool :=
  let allRecords := (rowsOf db localTable).map (fun p => p.2)
  if allRecords.length > 0 then
    let recordsMap := allRecords.foldl insertById []
    let uniqueRecords := recordsMap.map (fun p => p.2)
    let (calls, ok) := SupabaseAdapter.push env cfg localTable uniqueRecords
    if !ok then (db, calls, false)
    else
      match ChangeTracker.getPendingChanges db (some localTable) with
      | .error _ => (db, calls, false)
      | .ok pending =>
        if pending.length > 0 then
          match ChangeTracker.markMultipleAsSynced db (pending.map (fun c => c.id)) with
          | .ok db1 => (db1, calls, true)
          | .error _ => (db, calls, false)
        else (db, calls, true)
  else (db, [], true)

/-- The table loop of `pushAll`: unlike `push`'s per-table isolation
claim, a failure on any table rethrows and aborts the whole call. -/
def pushAllLoop (env : RemoteEnv) (cfg : SyncConfig) :
    DB → List (String × String) → DB × List RemoteCall × Bool
  | db, [] => (db, [], true)
  | db, (localTable, _) :: rest =>
    let (db1, calls, ok) := pushAllTable env cfg db localTable
    if ok then
      let (db2, more, ok2) := pushAllLoop env cfg db1 rest
      (db2, calls ++ more, ok2)
    else (db1, calls, false)

/-- `SyncEngine.pushAll`: a silent no-op while `isSyncing`; otherwise the
abort-on-first-failure table loop. -/
def pushAll (env : RemoteEnv) (cfg : SyncConfig) (s : EngineState) :
    EngineState × List RemoteCall × Bool :=
  if s.isSyncing then (s, [], true)
  else
    let (db1, calls, ok) := pushAllLoop env cfg s.db cfg.tables
    ({ s with db := db1 }, calls, ok)

end SyncEngine

/-! ### Specification-side definitions and concrete scenarios

The pipeline stages below restate the query pipeline as five separate
stage functions, to compare `Query.toArray` against their composition in
the claimed fixed order. -/

namespace Query

/-- Stage 2 of the spec's pipeline: the residual where-clauses, in order. -/
def whereStage (q : Query) (results : List Record) : List Record :=
  q.whereClauses.foldl applyWhereClause results

/-- Stage 3: the custom predicate filter. -/
def filterStage (q : Query) (results : List Record) : List Record :=
  match q.filterPredicate with
  | some p => results.filter p
  | none => results

/-- Stage 4: the single-field sort. -/
def sortStage (q : Query) (results : List Record) : List Record :=
  match q.sortField with
  | some field => results.mergeSort (sortLe field q.sortDirection)
  | none => results

/-- Stage 5a: offset. -/
def offsetStage (q : Query) (results : List Record) : List Record :=
  results.drop q.offsetCount

/-- Stage 5b: limit. -/
def limitStage (q : Query) (results : List Record) : List Record :=
  match q.limitCount with
  | some n => results.take n
  | none => results

end Query

/-- The change ids `push` marks for a list of tables: the ids of each
table's batch, in batch order. -/
def idsForTables (pending : List ChangeRecord) : List String → List Nat
  | [] => []
  | t :: ts =>
    (SyncEngine.batchOf pending t).map (fun c => c.id) ++ idsForTables pending ts

/-- The remote table a call is addressed to. -/
def RemoteCall.tableName : RemoteCall → String
  | .upsert s _ => s
  | .deleteKeys s _ => s
  | .selectSince s _ => s

/-- The `creates` partition of one push batch, in batch order
(`change.data` for each `create` entry). -/
def createDatas (changes : List ChangeRecord) : List Record :=
  (changes.filter (fun c => c.operation = .create)).map (fun c => c.data.getD [])

/-- The `updates` partition of one push batch, in batch order. -/
def updateDatas (changes : List ChangeRecord) : List Record :=
  (changes.filter (fun c => c.operation = .update)).map (fun c => c.data.getD [])

/-- The `deletes` partition of one push batch: the keys of the `delete`
entries, in batch order. -/
def deleteKeysOf (changes : List ChangeRecord) : List Value :=
  (changes.filter (fun c => c.operation = .delete)).map (fun c => c.key)

/-- The `recordsMap` of `pushTableChanges`: creates inserted first, then
updates, keyed by each record's defined `id`. -/
def recordsMapOf (changes : List ChangeRecord) : List (Value × Record) :=
  (updateDatas changes).foldl insertById ((createDatas changes).foldl insertById [])

/-! Concrete scenario values used by witnesses and counterexamples. -/

/-- A `users` table with in-line string key path `id`. -/
def usersT : TableDef := ⟨"users", some "id", false⟩

/-- An empty one-table database with the `_changes` store present. -/
def dbW : DB := ⟨[("users", [])], [], true, 0, 1, 100⟩

/-- A concrete record with a defined id. -/
def johnR : Record := [("id", .num 1), ("name", .str "John")]

/-- A two-table sync scenario: one pending create per table. -/
def chA : ChangeRecord := ⟨10, "a", .num 1, .create, some [("id", .num 1)], 5, false⟩

/-- The second table's pending create. -/
def chB : ChangeRecord := ⟨11, "b", .num 2, .create, some [("id", .num 2)], 6, false⟩

/-- Engine state with one pending change in each of tables `a` and `b`. -/
def sAB : EngineState :=
  ⟨⟨[("a", [(.num 1, [("id", .num 1)])]), ("b", [(.num 2, [("id", .num 2)])])],
    [chA, chB], true, 20, 1, 100⟩, [], false⟩

/-- The table mapping for the two-table scenario. -/
def cfgAB : SyncConfig := ⟨[("a", "ra"), ("b", "rb")], .lastWriteWins⟩

/-- A remote that accepts everything and returns no rows. -/
def envOk : RemoteEnv := ⟨fun _ => true, fun _ => true, fun _ _ => .ok []⟩

/-- A remote whose upserts to table `ra` fail. -/
def envFailA : RemoteEnv := ⟨fun s => s ≠ "ra", fun _ => true, fun _ _ => .ok []⟩

/-- A remote returning one changed record for table `ra`. -/
def envPull : RemoteEnv :=
  ⟨fun _ => true, fun _ => true,
   fun s _ => if s = "ra" then .ok [[("id", .num 7), ("name", .str "R")]] else .ok []⟩

/-- Engine state with two empty tables, nothing pending and no metadata. -/
def sEmpty : EngineState := ⟨⟨[("a", []), ("b", [])], [], true, 0, 1, 100⟩, [], false⟩

/-- A database without the `_changes` store, holding one synced and one
unsynced entry. -/
def dbNoStore : DB :=
  ⟨[("users", [])],
   [⟨0, "users", .num 1, .create, some johnR, 50, true⟩,
    ⟨1, "users", .num 2, .create, some johnR, 60, false⟩], false, 2, 1, 100⟩

/-- The pending changes of one table, as `getPendingChanges(table)` returns
them when the `_changes` store exists. -/
def pendingOf (db : DB) (t : String) : List ChangeRecord :=
  (db.changes.filter (fun c => !c.synced)).filter (fun c => c.table = t)

/-- An engine state that is mid-sync (`isSyncing` set). -/
def sBusy : EngineState := ⟨dbW, [], true⟩

/-- The database after `add`-ing `johnR` to the empty `users` table. -/
def dbWadd : DB :=
  ⟨[("users", [(.num 1, johnR)])],
   [⟨0, "users", .num 1, .create, some johnR, 100, false⟩], true, 1, 1, 100⟩

/-- A local record whose `updated_at` is far ahead of the remote's. -/
def lW : Record := [("id", .num 1), ("updated_at", .num 5000)]

/-- A remote record far behind the local one. -/
def rW : Record := [("id", .num 1), ("updated_at", .num 1)]

/-- A remote record within the conflict threshold of `lW`. -/
def rW2 : Record := [("id", .num 1), ("updated_at", .num 4500)]

/-- The schema key paths of the scenario tables (all keyed by `id`). -/
def kpW : String → Option String := fun _ => some "id"

/-- The scenario tables use no auto-increment. -/
def aiW : String → Bool := fun _ => false

/-- A batch with a create and an update on the same key plus a delete. -/
def chC : ChangeRecord :=
  ⟨30, "a", .num 1, .create, some [("id", .num 1), ("v", .num 1)], 1, false⟩

/-- The update that shadows `chC`'s key within the same batch. -/
def chU : ChangeRecord :=
  ⟨31, "a", .num 1, .update, some [("id", .num 1), ("v", .num 2)], 2, false⟩

/-- A delete within the same batch. -/
def chD : ChangeRecord := ⟨32, "a", .num 9, .delete, none, 3, false⟩

/-- The whole dedup batch. -/
def batchW : List ChangeRecord := [chC, chU, chD]

/-- A database holding the dedup batch as its pending changes. -/
def dbBatch : DB :=
  ⟨[("a", [(.num 1, [("id", .num 1), ("v", .num 2)])])], batchW, true, 40, 1, 200⟩

/-- The database after pulling one remote record into `sEmpty`'s table `a`:
the record is written and one pending `update` change is recorded. -/
def dbPulled : DB :=
  ⟨[("a", [(.num 7, [("id", .num 7), ("name", .str "R")])]), ("b", [])],
   [⟨0, "a", .num 7, .update, some [("id", .num 7), ("name", .str "R")], 100, false⟩],
   true, 1, 1, 100⟩

/-- A pending create whose payload has no `id` field. -/
def chNoId : ChangeRecord :=
  ⟨50, "a", .undefined, .create, some [("name", .str "X")], 1, false⟩

/-- A database whose only pending change lacks a payload id. -/
def dbNoId : DB := ⟨[("a", [])], [chNoId], true, 51, 1, 100⟩

/-! ### Frame lemmas for the store primitives -/

@[simp] theorem setRows_changes (db : DB) (n : String) (rows) :
    (setRows db n rows).changes = db.changes := rfl

@[simp] theorem setRows_nextId (db : DB) (n : String) (rows) :
    (setRows db n rows).nextId = db.nextId := rfl

@[simp] theorem setRows_now (db : DB) (n : String) (rows) :
    (setRows db n rows).now = db.now := rfl

@[simp] theorem setRows_hasChangesStore (db : DB) (n : String) (rows) :
    (setRows db n rows).hasChangesStore = db.hasChangesStore := rfl

@[simp] theorem trackChange_changes (db : DB) (t : String) (k : Value) (op : Op)
    (d : Option Record) :
    (trackChange db t k op d).changes =
      db.changes ++ [⟨db.nextId, t, k, op, d, db.now, false⟩] := rfl

/-- `idbAdd` touches only the stores and the key generator. -/
theorem idbAdd_frame {t : TableDef} {db : DB} {item : Record}
    {key? : Option Value} {db1 : DB} {k : Value}
    (h : Table.idbAdd t db item key? = .ok (db1, k)) :
    db1.changes = db.changes ∧ db1.nextId = db.nextId ∧ db1.now = db.now ∧
      db1.hasChangesStore = db.hasChangesStore := by
  simp only [Table.idbAdd] at h
  repeat' split at h
  all_goals simp only [Except.ok.injEq, Prod.mk.injEq, reduceCtorEq] at h
  all_goals obtain ⟨rfl, rfl⟩ := h
  all_goals simp

/-- Destructuring a successful `Except` bind. -/
theorem except_bind_ok {α β : Type} {x : Except Err α} {f : α → Except Err β}
    {b : β} (h : x >>= f = .ok b) : ∃ a, x = .ok a ∧ f a = .ok b := by
  cases x with
  | error e => exact absurd h (by simp [Bind.bind, Except.bind])
  | ok a => exact ⟨a, rfl, by simpa [Bind.bind, Except.bind] using h⟩

@[simp] theorem ok_bind {α β : Type} (a : α) (f : α → Except Err β) :
    (Except.ok a >>= f) = f a := rfl

/-- `idbPut` touches only the stores and the key generator. -/
theorem idbPut_frame {t : TableDef} {db : DB} {item : Record}
    {key? : Option Value} {db1 : DB} {k : Value}
    (h : Table.idbPut t db item key? = .ok (db1, k)) :
    db1.changes = db.changes ∧ db1.nextId = db.nextId ∧ db1.now = db.now ∧
      db1.hasChangesStore = db.hasChangesStore := by
  simp only [Table.idbPut] at h
  repeat' split at h
  all_goals simp only [Except.ok.injEq, Prod.mk.injEq, reduceCtorEq] at h
  all_goals obtain ⟨rfl, rfl⟩ := h
  all_goals simp

/-! ### One change record per mutation (`Table.add/put/update/delete`) -/

/-- Appending one tracked change, packaged for the per-operation lemmas. -/
theorem appends_one (db1 db : DB) (tn : String) (K : Value) (op : Op)
    (D : Option Record) (hc : db1.changes = db.changes) :
    ∃ c : ChangeRecord, (trackChange db1 tn K op D).changes = db.changes ++ [c] ∧
      c.table = tn ∧ c.operation = op ∧ c.synced = false :=
  ⟨⟨db1.nextId, tn, K, op, D, db1.now, false⟩, by simp [hc], rfl, rfl, rfl⟩

/-- A successful `add` appends exactly one `create` entry, unsynced. -/
theorem add_appends_one_create {t : TableDef} {db : DB} {item : Record}
    {key? : Option Value} {db' : DB} {res : Value}
    (h : Table.add t db item key? = .ok (db', res)) :
    ∃ c : ChangeRecord, db'.changes = db.changes ++ [c] ∧ c.table = t.name ∧
      c.operation = .create ∧ c.synced = false := by
  simp only [Table.add] at h
  split at h
  · obtain ⟨sk, hser, h⟩ := except_bind_ok h
    obtain ⟨y, hy, h⟩ := except_bind_ok h
    obtain ⟨⟨db1, result⟩, hadd, h⟩ := except_bind_ok h
    simp only [pure, Except.pure, Except.ok.injEq, Prod.mk.injEq] at h
    obtain ⟨rfl, rfl⟩ := h.symm
    exact appends_one _ _ _ _ _ _ (idbAdd_frame hadd).1
  · obtain ⟨y, hy, h⟩ := except_bind_ok h
    obtain ⟨⟨db1, result⟩, hadd, h⟩ := except_bind_ok h
    simp only [pure, Except.pure, Except.ok.injEq, Prod.mk.injEq] at h
    obtain ⟨rfl, rfl⟩ := h.symm
    exact appends_one _ _ _ _ _ _ (idbAdd_frame hadd).1

/-- A successful `put` appends exactly one `update` entry, unsynced. -/
theorem put_appends_one_update {t : TableDef} {db : DB} {item : Record}
    {key? : Option Value} {db' : DB} {res : Value}
    (h : Table.put t db item key? = .ok (db', res)) :
    ∃ c : ChangeRecord, db'.changes = db.changes ++ [c] ∧ c.table = t.name ∧
      c.operation = .update ∧ c.synced = false := by
  simp only [Table.put] at h
  split at h
  · obtain ⟨⟨db1, result⟩, hput, h⟩ := except_bind_ok h
    simp only [pure, Except.pure, Except.ok.injEq, Prod.mk.injEq] at h
    obtain ⟨rfl, rfl⟩ := h.symm
    exact appends_one _ _ _ _ _ _ (idbPut_frame hput).1
  · split at h
    · obtain ⟨⟨db1, result⟩, hput, h⟩ := except_bind_ok h
      simp only [pure, Except.pure, Except.ok.injEq, Prod.mk.injEq] at h
      obtain ⟨rfl, rfl⟩ := h.symm
      exact appends_one _ _ _ _ _ _ (idbPut_frame hput).1
    · obtain ⟨sk, hser, h⟩ := except_bind_ok h
      obtain ⟨⟨db1, result⟩, hput, h⟩ := except_bind_ok h
      simp only [pure, Except.pure, Except.ok.injEq, Prod.mk.injEq] at h
      obtain ⟨rfl, rfl⟩ := h.symm
      exact appends_one _ _ _ _ _ _ (idbPut_frame hput).1
    · obtain ⟨⟨db1, result⟩, hput, h⟩ := except_bind_ok h
      simp only [pure, Except.pure, Except.ok.injEq, Prod.mk.injEq] at h
      obtain ⟨rfl, rfl⟩ := h.symm
      exact appends_one _ _ _ _ _ _ (idbPut_frame hput).1

/-- A successful `update` appends exactly one `update` entry, unsynced
(it is get-merge-put). -/
theorem update_appends_one_update {t : TableDef} {db : DB} {key : Value}
    {changes : Record} {db' : DB} {res : Value}
    (h : Table.update t db key changes = .ok (db', res)) :
    ∃ c : ChangeRecord, db'.changes = db.changes ++ [c] ∧ c.table = t.name ∧
      c.operation = .update ∧ c.synced = false := by
  simp only [Table.update] at h
  obtain ⟨existing?, hget, h⟩ := except_bind_ok h
  match existing? with
  | none => exact absurd h (by simp)
  | some existing =>
    simp only at h
    split at h
    · exact put_appends_one_update h
    · exact put_appends_one_update h

/-- A successful `delete` appends exactly one `delete` entry, unsynced. -/
theorem delete_appends_one_delete {t : TableDef} {db : DB} {key : Value}
    {db' : DB} (h : Table.delete t db key = .ok db') :
    ∃ c : ChangeRecord, db'.changes = db.changes ++ [c] ∧ c.table = t.name ∧
      c.operation = .delete ∧ c.synced = false := by
  simp only [Table.delete] at h
  obtain ⟨sk, hser, h⟩ := except_bind_ok h
  simp only [pure, Except.pure, Except.ok.injEq] at h
  obtain rfl := h.symm
  exact appends_one _ _ _ _ _ _ (by simp)

/-- A successful `bulkAdd` appends exactly one unsynced `create` entry per
item. -/
theorem bulkAdd_appends {t : TableDef} :
    ∀ {items : List Record} {db db' : DB} {ks : List Value},
    Table.bulkAdd t db items = .ok (db', ks) →
    ∃ newRecs : List ChangeRecord, db'.changes = db.changes ++ newRecs ∧
      newRecs.length = items.length ∧
      ∀ c ∈ newRecs, c.table = t.name ∧ c.operation = .create ∧ c.synced = false := by
  intro items
  induction items with
  | nil =>
    intro db db' ks h
    simp only [Table.bulkAdd, pure, Except.pure, Except.ok.injEq, Prod.mk.injEq] at h
    obtain ⟨rfl, rfl⟩ := h.symm
    exact ⟨[], by simp, rfl, by simp⟩
  | cons item rest ih =>
    intro db db' ks h
    simp only [Table.bulkAdd] at h
    obtain ⟨⟨db1, k⟩, hadd, h⟩ := except_bind_ok h
    obtain ⟨⟨db2, ks'⟩, hrest, h⟩ := except_bind_ok h
    simp only [pure, Except.pure, Except.ok.injEq, Prod.mk.injEq] at h
    obtain ⟨rfl, rfl⟩ := h.symm
    obtain ⟨c, hc, hct, hco, hcs⟩ := add_appends_one_create hadd
    obtain ⟨newRecs, hn, hlen, hall⟩ := ih hrest
    refine ⟨c :: newRecs, ?_, by simp [hlen], ?_⟩
    · simp [hn, hc]
    · intro c' hc'
      rcases List.mem_cons.mp hc' with rfl | hmem
      · exact ⟨hct, hco, hcs⟩
      · exact hall c' hmem

/-- A successful `bulkPut` appends exactly one unsynced `update` entry per
item. -/
theorem bulkPut_appends {t : TableDef} :
    ∀ {items : List Record} {db db' : DB} {ks : List Value},
    Table.bulkPut t db items = .ok (db', ks) →
    ∃ newRecs : List ChangeRecord, db'.changes = db.changes ++ newRecs ∧
      newRecs.length = items.length ∧
      ∀ c ∈ newRecs, c.table = t.name ∧ c.operation = .update ∧ c.synced = false := by
  intro items
  induction items with
  | nil =>
    intro db db' ks h
    simp only [Table.bulkPut, pure, Except.pure, Except.ok.injEq, Prod.mk.injEq] at h
    obtain ⟨rfl, rfl⟩ := h.symm
    exact ⟨[], by simp, rfl, by simp⟩
  | cons item rest ih =>
    intro db db' ks h
    simp only [Table.bulkPut] at h
    obtain ⟨⟨db1, k⟩, hput, h⟩ := except_bind_ok h
    obtain ⟨⟨db2, ks'⟩, hrest, h⟩ := except_bind_ok h
    simp only [pure, Except.pure, Except.ok.injEq, Prod.mk.injEq] at h
    obtain ⟨rfl, rfl⟩ := h.symm
    obtain ⟨c, hc, hct, hco, hcs⟩ := put_appends_one_update hput
    obtain ⟨newRecs, hn, hlen, hall⟩ := ih hrest
    refine ⟨c :: newRecs, ?_, by simp [hlen], ?_⟩
    · simp [hn, hc]
    · intro c' hc'
      rcases List.mem_cons.mp hc' with rfl | hmem
      · exact ⟨hct, hco, hcs⟩
      · exact hall c' hmem

/-- A successful `bulkDelete` appends exactly one unsynced `delete` entry
per key. -/
theorem bulkDelete_appends {t : TableDef} :
    ∀ {keys : List Value} {db db' : DB},
    Table.bulkDelete t db keys = .ok db' →
    ∃ newRecs : List ChangeRecord, db'.changes = db.changes ++ newRecs ∧
      newRecs.length = keys.length ∧
      ∀ c ∈ newRecs, c.table = t.name ∧ c.operation = .delete ∧ c.synced = false := by
  intro keys
  induction keys with
  | nil =>
    intro db db' h
    simp only [Table.bulkDelete, pure, Except.pure, Except.ok.injEq] at h
    obtain rfl := h.symm
    exact ⟨[], by simp, rfl, by simp⟩
  | cons key rest ih =>
    intro db db' h
    simp only [Table.bulkDelete] at h
    obtain ⟨db1, hdel, hrest⟩ := except_bind_ok h
    obtain ⟨c, hc, hct, hco, hcs⟩ := delete_appends_one_delete hdel
    obtain ⟨newRecs, hn, hlen, hall⟩ := ih hrest
    refine ⟨c :: newRecs, ?_, by simp [hlen], ?_⟩
    · simp [hn, hc]
    · intro c' hc'
      rcases List.mem_cons.mp hc' with rfl | hmem
      · exact ⟨hct, hco, hcs⟩
      · exact hall c' hmem

/-! ### Change-tracker and marking lemmas -/

@[simp] theorem markIf_id (ids : List Nat) (c : ChangeRecord) :
    (ChangeTracker.markIf ids c).id = c.id := by
  simp only [ChangeTracker.markIf]; split <;> rfl

@[simp] theorem markIf_table (ids : List Nat) (c : ChangeRecord) :
    (ChangeTracker.markIf ids c).table = c.table := by
  simp only [ChangeTracker.markIf]; split <;> rfl

theorem markIf_synced_of_synced {ids : List Nat} {c : ChangeRecord}
    (h : c.synced = true) : (ChangeTracker.markIf ids c).synced = true := by
  simp only [ChangeTracker.markIf]; split <;> simp [h]

theorem markIf_synced_of_mem {ids : List Nat} {c : ChangeRecord}
    (h : c.id ∈ ids) : (ChangeTracker.markIf ids c).synced = true := by
  simp [ChangeTracker.markIf, h]

theorem markIf_of_not_mem {ids : List Nat} {c : ChangeRecord}
    (h : c.id ∉ ids) : ChangeTracker.markIf ids c = c := by
  simp [ChangeTracker.markIf, h]

/-- Marking twice is marking with the concatenated id lists. -/
theorem markIf_markIf (I J : List Nat) (c : ChangeRecord) :
    ChangeTracker.markIf J (ChangeTracker.markIf I c) =
      ChangeTracker.markIf (I ++ J) c := by
  simp only [ChangeTracker.markIf]
  by_cases hI : c.id ∈ I <;> by_cases hJ : c.id ∈ J <;>
    simp [hI, hJ]

/-- The pending-change read succeeds iff the `_changes` store exists, and
then returns exactly the unsynced entries. -/
theorem getPendingChanges_ok {db : DB} (h : db.hasChangesStore = true) :
    ChangeTracker.getPendingChanges db none =
      .ok (db.changes.filter (fun c => !c.synced)) := by
  simp [ChangeTracker.getPendingChanges, h]

theorem getPendingChanges_hasStore {db : DB} {tb : Option String}
    {l : List ChangeRecord} (h : ChangeTracker.getPendingChanges db tb = .ok l) :
    db.hasChangesStore = true := by
  by_contra hn
  simp only [Bool.not_eq_true] at hn
  simp [ChangeTracker.getPendingChanges, hn] at h

theorem markMultipleAsSynced_ok {db : DB} (h : db.hasChangesStore = true)
    (ids : List Nat) :
    ChangeTracker.markMultipleAsSynced db ids =
      .ok { db with changes := db.changes.map (ChangeTracker.markIf ids) } := by
  simp [ChangeTracker.markMultipleAsSynced, h]

/-! ### Association-list dedup lemmas (`Map.set` semantics) -/

theorem lookup_replaceValue (m : List (Value × Record)) (k : Value) (r : Record)
    (k' : Value) :
    (m.map (fun p => if p.1 = k then (k, r) else p)).lookup k' =
      if k' = k then (m.lookup k).map (fun _ => r) else m.lookup k' := by
  induction m with
  | nil => simp [List.lookup]
  | cons p m ih =>
    obtain ⟨a, b⟩ := p
    by_cases ha : a = k
    · by_cases hk : k' = a
      · have h1 : (k' == k) = true := by simp [hk.trans ha]
        have h2 : (k == a) = true := by simp [ha]
        simp only [List.map_cons, if_pos ha, List.lookup_cons, h1, h2]
        simp [hk.trans ha]
      · have hk2 : ¬ k' = k := fun h => hk (h.trans ha.symm)
        have h1 : (k' == k) = false := by simp [hk2]
        have h2 : (k' == a) = false := by simp [hk]
        simp only [List.map_cons, if_pos ha, List.lookup_cons, h1, h2]
        rw [ih]
        simp [hk2]
    · by_cases hk : k' = a
      · have hk2 : ¬ k' = k := fun h => ha (hk.symm.trans h)
        have h1 : (k' == a) = true := by simp [hk]
        simp only [List.map_cons, if_neg ha, List.lookup_cons, h1]
        simp [hk2]
      · have h1 : (k' == a) = false := by simp [hk]
        have h2 : (k == a) = false := by
          simp only [beq_eq_false_iff_ne, ne_eq]
          exact fun h => ha h.symm
        simp only [List.map_cons, if_neg ha, List.lookup_cons, h1]
        rw [ih]
        by_cases hkk : k' = k
        · simp only [if_pos hkk, List.lookup_cons, h2]
        · simp [hkk]

theorem lookup_append_or (m l : List (Value × Record)) (k : Value) :
    ((m ++ l).lookup k) = (m.lookup k).or (l.lookup k) := by
  induction m with
  | nil => simp [List.lookup]
  | cons p m ih =>
    obtain ⟨a, b⟩ := p
    by_cases hk : k = a
    · subst hk
      simp [List.lookup_cons]
    · have hne : (k == a) = false := by simp [hk]
      simp [List.lookup_cons, hne, ih]

/-- `Map.set`: the set key now maps to the new record, all other keys are
unchanged. -/
theorem dedupInsert_lookup (m : List (Value × Record)) (k : Value) (r : Record)
    (k' : Value) :
    (dedupInsert m k r).lookup k' = if k' = k then some r else m.lookup k' := by
  unfold dedupInsert
  split
  · next hsome =>
    rw [lookup_replaceValue]
    by_cases hk : k' = k
    · obtain ⟨v, hv⟩ := Option.isSome_iff_exists.mp hsome
      simp [hk, hv]
    · simp [hk]
  · next hnone =>
    rw [lookup_append_or]
    by_cases hk : k' = k
    · subst hk
      have : m.lookup k' = none := by
        cases hm : m.lookup k' with
        | none => rfl
        | some v => rw [hm] at hnone; simp at hnone
      simp [this, List.lookup_cons]
    · have hne : (k' == k) = false := by simp [hk]
      simp [hk, List.lookup_cons, hne, List.lookup]

/-- One `recordsMap.set` step: a record with a defined id shadows that id,
one without a defined id is dropped. -/
theorem insertById_lookup (m : List (Value × Record)) (x : Record) (k : Value) :
    (insertById m x).lookup k =
      if definedId x = some k then some x else m.lookup k := by
  unfold insertById
  cases hd : definedId x with
  | none => simp
  | some k0 =>
    rw [dedupInsert_lookup]
    by_cases hk : k = k0
    · subst hk; simp
    · simp [hk, Ne.symm hk]

/-- Folding `Map.set` over a record list: the surviving value for a key is
the last-seen record with that id, falling back to the accumulator. -/
theorem foldl_insertById_lookup :
    ∀ (l : List Record) (m : List (Value × Record)) (k : Value),
    ((l.foldl insertById m).lookup k) =
      (l.reverse.find? (fun r => definedId r == some k)).or (m.lookup k) := by
  intro l
  induction l with
  | nil => intro m k; simp
  | cons x l ih =>
    intro m k
    simp only [List.foldl_cons, List.reverse_cons, List.find?_append]
    rw [ih]
    cases hA : l.reverse.find? (fun r => definedId r == some k) with
    | some r => simp
    | none =>
      simp only [Option.none_or]
      rw [insertById_lookup]
      by_cases hd : definedId x = some k
      · simp [List.find?, hd]
      · have : (definedId x == some k) = false := by simp [hd]
        simp [List.find?, this, hd]

/-! ### `pushTableChanges` characterization -/

set_option maxHeartbeats 2000000 in
/-- A successful `pushTableChanges` marks exactly the batch's ids synced
(and implies the `_changes` store exists); a failed one leaves the
database untouched; and every remote call it makes is addressed to the
batch's own remote table. -/
theorem pushTableChanges_spec (env : RemoteEnv) (cfg : SyncConfig)
    (tn : String) (changes : List ChangeRecord) (db : DB) :
    ((SyncEngine.pushTableChanges env cfg tn changes db).ok = true →
      (SyncEngine.pushTableChanges env cfg tn changes db).db =
        { db with changes :=
            db.changes.map (ChangeTracker.markIf (changes.map (fun c => c.id))) } ∧
        db.hasChangesStore = true) ∧
    ((SyncEngine.pushTableChanges env cfg tn changes db).ok = false →
      (SyncEngine.pushTableChanges env cfg tn changes db).db = db) ∧
    (∀ call ∈ (SyncEngine.pushTableChanges env cfg tn changes db).calls,
      call.tableName = getSupabaseTableName cfg tn) := by
  by_cases hs : db.hasChangesStore = true
  · simp only [SyncEngine.pushTableChanges, SupabaseAdapter.push,
      SupabaseAdapter.delete, ChangeTracker.markMultipleAsSynced, hs]
    repeat' split
    all_goals simp_all [RemoteCall.tableName]
  · simp only [Bool.not_eq_true] at hs
    simp only [SyncEngine.pushTableChanges, SupabaseAdapter.push,
      SupabaseAdapter.delete, ChangeTracker.markMultipleAsSynced, hs]
    repeat' split
    all_goals simp_all [RemoteCall.tableName]

/-- The surviving deduplicated value for a key: the last-seen update with
that id when one exists, else the last-seen create with that id (an update
always wins over a create for the same key). -/
theorem recordsMapOf_lookup (changes : List ChangeRecord) (k : Value) :
    (recordsMapOf changes).lookup k =
      ((updateDatas changes).reverse.find? (fun r => definedId r == some k)).or
        ((createDatas changes).reverse.find? (fun r => definedId r == some k)) := by
  rw [recordsMapOf, foldl_insertById_lookup, foldl_insertById_lookup]
  simp [List.lookup]

set_option maxHeartbeats 4000000 in
/-- On the success path, the remote trace of `pushTableChanges` is exactly
the one combined upsert of the deduplicated records followed by the one
delete of the batch's delete keys (each elided when its payload is empty). -/
theorem pushTableChanges_calls_content (env : RemoteEnv) (cfg : SyncConfig)
    (tn : String) (changes : List ChangeRecord) (db : DB) :
    (SyncEngine.pushTableChanges env cfg tn changes db).ok = true →
    (SyncEngine.pushTableChanges env cfg tn changes db).calls =
      (SupabaseAdapter.push env cfg tn
        ((recordsMapOf changes).map (fun p => p.2))).1 ++
      (SupabaseAdapter.delete env cfg tn (deleteKeysOf changes)).1 := by
  by_cases hs : db.hasChangesStore = true
  · simp only [SyncEngine.pushTableChanges, SupabaseAdapter.push,
      SupabaseAdapter.delete, ChangeTracker.markMultipleAsSynced,
      recordsMapOf, createDatas, updateDatas, deleteKeysOf, hs]
    repeat' split
    all_goals simp_all [-List.filter_eq_nil_iff, List.length_eq_zero]
  · simp only [Bool.not_eq_true] at hs
    simp only [SyncEngine.pushTableChanges, SupabaseAdapter.push,
      SupabaseAdapter.delete, ChangeTracker.markMultipleAsSynced,
      recordsMapOf, createDatas, updateDatas, deleteKeysOf, hs]
    repeat' split
    all_goals simp_all [-List.filter_eq_nil_iff, List.length_eq_zero]

/-! ### Push-loop lemmas -/

@[simp] theorem markIf_nil (c : ChangeRecord) : ChangeTracker.markIf [] c = c :=
  markIf_of_not_mem (by simp)

@[simp] theorem idsForTables_nil (pending : List ChangeRecord) :
    idsForTables pending [] = [] := rfl

@[simp] theorem map_markIf_nil (l : List ChangeRecord) :
    l.map (ChangeTracker.markIf []) = l := by
  have h : l.map (ChangeTracker.markIf []) = l.map id :=
    List.map_congr_left (fun c _ => markIf_nil c)
  simpa using h

/-- A fully successful push loop marks exactly the ids of the processed
tables' batches. -/
theorem pushLoop_ok (env : RemoteEnv) (cfg : SyncConfig)
    (pending : List ChangeRecord) :
    ∀ {ts : List String} {db db' : DB} {calls : List RemoteCall},
    SyncEngine.pushLoop env cfg pending ts db = (db', calls, true) →
    db' = { db with changes :=
      db.changes.map (ChangeTracker.markIf (idsForTables pending ts)) } := by
  intro ts
  induction ts with
  | nil =>
    intro db db' calls h
    simp only [SyncEngine.pushLoop, Prod.mk.injEq] at h
    obtain ⟨rfl, -, -⟩ := h
    simp
  | cons t ts ih =>
    intro db db' calls h
    simp only [SyncEngine.pushLoop] at h
    split at h
    · next hok =>
      rcases hloop : SyncEngine.pushLoop env cfg pending ts
        (SyncEngine.pushTableChanges env cfg t (SyncEngine.batchOf pending t) db).db
        with ⟨db1, calls1, ok1⟩
      rw [hloop] at h
      simp only [Prod.mk.injEq] at h
      obtain ⟨rfl, -, hok1⟩ := h
      subst hok1
      have hdb := ((pushTableChanges_spec env cfg t
        (SyncEngine.batchOf pending t) db).1 hok).1
      have := ih hloop
      rw [this, hdb]
      simp only [idsForTables]
      congr 1
      rw [List.map_map]
      exact List.map_congr_left (fun c _ => markIf_markIf _ _ c)
    · next hok =>
      simp only [Prod.mk.injEq] at h
      simp [Bool.not_eq_true] at hok
      obtain ⟨-, -, h3⟩ := h
      simp [hok] at h3

/-- Prepending an all-successful prefix to a push loop. -/
theorem pushLoop_append_ok (env : RemoteEnv) (cfg : SyncConfig)
    (pending : List ChangeRecord) :
    ∀ {pre rest : List String} {db db1 : DB} {c1 : List RemoteCall},
    SyncEngine.pushLoop env cfg pending pre db = (db1, c1, true) →
    SyncEngine.pushLoop env cfg pending (pre ++ rest) db =
      ((SyncEngine.pushLoop env cfg pending rest db1).1,
       c1 ++ (SyncEngine.pushLoop env cfg pending rest db1).2.1,
       (SyncEngine.pushLoop env cfg pending rest db1).2.2) := by
  intro pre
  induction pre with
  | nil =>
    intro rest db db1 c1 h
    simp only [SyncEngine.pushLoop, Prod.mk.injEq] at h
    obtain ⟨rfl, rfl, -⟩ := h
    simp
  | cons t pre ih =>
    intro rest db db1 c1 h
    simp only [SyncEngine.pushLoop] at h
    split at h
    · next hok =>
      rcases hloop : SyncEngine.pushLoop env cfg pending pre
        (SyncEngine.pushTableChanges env cfg t (SyncEngine.batchOf pending t) db).db
        with ⟨db2, calls2, ok2⟩
      rw [hloop] at h
      simp only [Prod.mk.injEq] at h
      obtain ⟨rfl, rfl, hok2⟩ := h
      subst hok2
      simp only [List.cons_append, SyncEngine.pushLoop, hok, if_pos]
      simp only [List.append_eq]
      rw [ih hloop]
      simp [List.append_assoc]
    · next hok =>
      simp only [Prod.mk.injEq] at h
      simp [Bool.not_eq_true] at hok
      obtain ⟨-, -, h3⟩ := h
      simp [hok] at h3

/-- A push loop whose first table's batch fails stops immediately, leaving
the database untouched. -/
theorem pushLoop_head_fail (env : RemoteEnv) (cfg : SyncConfig)
    (pending : List ChangeRecord) (t : String) (ts : List String) (db : DB)
    (h : (SyncEngine.pushTableChanges env cfg t (SyncEngine.batchOf pending t) db).ok
      = false) :
    SyncEngine.pushLoop env cfg pending (t :: ts) db =
      (db, (SyncEngine.pushTableChanges env cfg t (SyncEngine.batchOf pending t) db).calls,
       false) := by
  have hdb := (pushTableChanges_spec env cfg t (SyncEngine.batchOf pending t) db).2.1 h
  simp only [SyncEngine.pushLoop, h]
  simp [hdb]

/-! ### Table-order lemmas -/

theorem mem_tableOrder_foldl (l : List ChangeRecord) :
    ∀ (acc : List String) (x : String),
    x ∈ l.foldl (fun acc c => if c.table ∈ acc then acc else acc ++ [c.table]) acc ↔
      x ∈ acc ∨ x ∈ l.map (fun c => c.table) := by
  induction l with
  | nil => intro acc x; simp
  | cons c l ih =>
    intro acc x
    simp only [List.foldl_cons, List.map_cons, List.mem_cons]
    rw [ih]
    by_cases hc : c.table ∈ acc
    · simp only [hc, if_pos]
      constructor
      · rintro (h | h)
        · exact Or.inl h
        · exact Or.inr (Or.inr h)
      · rintro (h | h | h)
        · exact Or.inl h
        · exact Or.inl (h ▸ hc)
        · exact Or.inr h
    · simp only [hc, if_neg, not_false_iff, List.mem_append, List.mem_singleton]
      constructor
      · rintro ((h | h) | h)
        · exact Or.inl h
        · exact Or.inr (Or.inl h)
        · exact Or.inr (Or.inr h)
      · rintro (h | h | h)
        · exact Or.inl (Or.inl h)
        · exact Or.inl (Or.inr h)
        · exact Or.inr h

/-- Every pending change's table occurs in the push grouping order. -/
theorem table_mem_tableOrder {pending : List ChangeRecord} {c : ChangeRecord}
    (h : c ∈ pending) : c.table ∈ SyncEngine.tableOrder pending := by
  rw [SyncEngine.tableOrder, mem_tableOrder_foldl]
  exact Or.inr (List.mem_map_of_mem _ h)

/-- A change of a table in the list has its id among the marked ids. -/
theorem id_mem_idsForTables {pending : List ChangeRecord} {c : ChangeRecord}
    (hc : c ∈ pending) :
    ∀ {ts : List String}, c.table ∈ ts → c.id ∈ idsForTables pending ts := by
  intro ts
  induction ts with
  | nil => intro h; simp at h
  | cons t ts ih =>
    intro h
    simp only [idsForTables, List.mem_append]
    rcases List.mem_cons.mp h with rfl | hmem
    · exact Or.inl (List.mem_map_of_mem _
        (List.mem_filter.mpr ⟨hc, by simp⟩))
    · exact Or.inr (ih hmem)

/-! ### Claim theorems -/

/-- C6: if `push()` completes successfully, a second `push()` with no
intervening local mutation performs no remote calls: the pending-change
query of the resulting state is empty, so the second call returns early
with an empty remote trace and the state unchanged — push is idempotent on
an already-synced state. -/
theorem push_idempotent_after_success {env env2 : RemoteEnv} {cfg : SyncConfig}
    {s s1 : EngineState} {tr : List RemoteCall}
    (h : SyncEngine.push env cfg s = (s1, tr, true)) :
    SyncEngine.push env2 cfg s1 = (s1, [], true) := by
  by_cases hsync : s.isSyncing = true
  · simp only [SyncEngine.push, hsync, if_pos, Prod.mk.injEq] at h
    obtain ⟨rfl, rfl, -⟩ := h
    simp [SyncEngine.push, hsync]
  · simp only [Bool.not_eq_true] at hsync
    cases hpend : ChangeTracker.getPendingChanges s.db none with
    | error e => simp [SyncEngine.push, hsync, hpend] at h
    | ok pending =>
      have hstore : s.db.hasChangesStore = true := getPendingChanges_hasStore hpend
      have hpend' : pending = s.db.changes.filter (fun c => !c.synced) := by
        have h2 := hpend.symm.trans (getPendingChanges_ok hstore)
        exact (Except.ok.injEq _ _).mp h2
      by_cases hlen : pending.length = 0
      · simp only [SyncEngine.push, hsync, hpend, hlen, Bool.false_eq_true,
          if_false, if_pos, Prod.mk.injEq] at h
        obtain ⟨rfl, rfl, -⟩ := h
        simp [SyncEngine.push, hsync, hpend, hlen]
      · rcases hloop : SyncEngine.pushLoop env cfg pending
          (SyncEngine.tableOrder pending) s.db with ⟨db1, calls, ok⟩
        simp only [SyncEngine.push, hsync, hpend, hlen, Bool.false_eq_true,
          if_false, hloop, Prod.mk.injEq] at h
        obtain ⟨rfl, rfl, hok⟩ := h
        subst hok
        have hdb1 := pushLoop_ok env cfg pending hloop
        have hstore1 : db1.hasChangesStore = true := by rw [hdb1]; exact hstore
        have hfilter : db1.changes.filter (fun c => !c.synced) = [] := by
          rw [hdb1]
          refine List.filter_eq_nil_iff.mpr ?_
          intro c hc
          obtain ⟨c0, hc0, rfl⟩ := List.mem_map.mp hc
          by_cases hsy : c0.synced = true
          · simp [markIf_synced_of_synced hsy]
          · have hc0p : c0 ∈ pending := by
              rw [hpend']
              exact List.mem_filter.mpr ⟨hc0, by simp [hsy]⟩
            have hid : c0.id ∈ idsForTables pending (SyncEngine.tableOrder pending) :=
              id_mem_idsForTables hc0p (table_mem_tableOrder hc0p)
            simp [markIf_synced_of_mem hid]
        have hpend1 : ChangeTracker.getPendingChanges db1 none = .ok [] := by
          rw [getPendingChanges_ok hstore1, hfilter]
        simp [SyncEngine.push, hsync, hpend1]

/-- C6 witness: on the concrete two-table scenario, the first push succeeds
and the second push is a no-op with no remote calls. -/
theorem push_idempotent_after_success_witness :
    SyncEngine.push envOk cfgAB (SyncEngine.push envOk cfgAB sAB).1 =
      ((SyncEngine.push envOk cfgAB sAB).1, [], true) :=
  @push_idempotent_after_success envOk envOk cfgAB sAB
    (SyncEngine.push envOk cfgAB sAB).1 (SyncEngine.push envOk cfgAB sAB).2.1
    (by decide)

/-- C1: every successful `LocalTable` mutation — `add`, `put`,
`update(key, changes)`, `delete`, and each element of a bulk variant —
records exactly one `ChangeRecord` with `synced = false` and operation
`create` for add, `update` for put (hence for update, which is
get-merge-put), and `delete` for delete; and after a table's batch is
pushed successfully, every `ChangeRecord` of that batch has
`synced = true`. -/
theorem localTable_mutation_changelog :
    (∀ (t : TableDef) (db : DB) (item : Record) (key? : Option Value)
       (db' : DB) (res : Value), Table.add t db item key? = .ok (db', res) →
       ∃ c : ChangeRecord, db'.changes = db.changes ++ [c] ∧ c.table = t.name ∧
         c.operation = .create ∧ c.synced = false) ∧
    (∀ (t : TableDef) (db : DB) (item : Record) (key? : Option Value)
       (db' : DB) (res : Value), Table.put t db item key? = .ok (db', res) →
       ∃ c : ChangeRecord, db'.changes = db.changes ++ [c] ∧ c.table = t.name ∧
         c.operation = .update ∧ c.synced = false) ∧
    (∀ (t : TableDef) (db : DB) (key : Value) (changes : Record)
       (db' : DB) (res : Value), Table.update t db key changes = .ok (db', res) →
       ∃ c : ChangeRecord, db'.changes = db.changes ++ [c] ∧ c.table = t.name ∧
         c.operation = .update ∧ c.synced = false) ∧
    (∀ (t : TableDef) (db : DB) (key : Value) (db' : DB),
       Table.delete t db key = .ok db' →
       ∃ c : ChangeRecord, db'.changes = db.changes ++ [c] ∧ c.table = t.name ∧
         c.operation = .delete ∧ c.synced = false) ∧
    (∀ (t : TableDef) (items : List Record) (db db' : DB) (ks : List Value),
       Table.bulkAdd t db items = .ok (db', ks) →
       ∃ newRecs : List ChangeRecord, db'.changes = db.changes ++ newRecs ∧
         newRecs.length = items.length ∧
         ∀ c ∈ newRecs, c.table = t.name ∧ c.operation = .create ∧ c.synced = false) ∧
    (∀ (t : TableDef) (items : List Record) (db db' : DB) (ks : List Value),
       Table.bulkPut t db items = .ok (db', ks) →
       ∃ newRecs : List ChangeRecord, db'.changes = db.changes ++ newRecs ∧
         newRecs.length = items.length ∧
         ∀ c ∈ newRecs, c.table = t.name ∧ c.operation = .update ∧ c.synced = false) ∧
    (∀ (t : TableDef) (keys : List Value) (db db' : DB),
       Table.bulkDelete t db keys = .ok db' →
       ∃ newRecs : List ChangeRecord, db'.changes = db.changes ++ newRecs ∧
         newRecs.length = keys.length ∧
         ∀ c ∈ newRecs, c.table = t.name ∧ c.operation = .delete ∧ c.synced = false) ∧
    (∀ (env : RemoteEnv) (cfg : SyncConfig) (tn : String)
       (batch : List ChangeRecord) (db : DB),
       (SyncEngine.pushTableChanges env cfg tn batch db).ok = true →
       ∀ c' ∈ (SyncEngine.pushTableChanges env cfg tn batch db).db.changes,
         c'.id ∈ batch.map (fun c => c.id) → c'.synced = true) := by
  refine ⟨?_, ?_, ?_, ?_, ?_, ?_, ?_, ?_⟩
  · exact fun t db item key? db' res h => add_appends_one_create h
  · exact fun t db item key? db' res h => put_appends_one_update h
  · exact fun t db key ch db' res h => update_appends_one_update h
  · exact fun t db key db' h => delete_appends_one_delete h
  · exact fun t items db db' ks h => bulkAdd_appends h
  · exact fun t items db db' ks h => bulkPut_appends h
  · exact fun t keys db db' h => bulkDelete_appends h
  · intro env cfg tn batch db hok c' hc' hid
    have hdb := ((pushTableChanges_spec env cfg tn batch db).1 hok).1
    rw [hdb] at hc'
    obtain ⟨c0, hc0, rfl⟩ := List.mem_map.mp hc'
    rw [markIf_id] at hid
    exact markIf_synced_of_mem hid

/-- C1 witness: adding `johnR` to the empty `users` table records exactly
one unsynced `create` entry, and after the single-change batch of table
`a` is pushed, its change record is synced. -/
theorem localTable_mutation_changelog_witness :
    (∃ c : ChangeRecord, dbWadd.changes = dbW.changes ++ [c] ∧
      c.table = usersT.name ∧ c.operation = .create ∧ c.synced = false) ∧
    (ChangeRecord.mk 10 "a" (.num 1) .create
      (some [("id", .num 1)]) 5 true).synced = true :=
  ⟨localTable_mutation_changelog.1 usersT dbW johnR none dbWadd (.num 1) (by decide),
   localTable_mutation_changelog.2.2.2.2.2.2.2 envOk cfgAB "a" [chA] sAB.db
     (by decide) ⟨10, "a", .num 1, .create, some [("id", .num 1)], 5, true⟩
     (by decide) (by decide)⟩

/-- C7: while `isSyncing` is set, `push`, `pull`, `full` and `pushAll` are
all silent no-ops: no remote calls, no state change, no error, nothing
queued — the four operations are mutually exclusive at the engine level. -/
theorem isSyncing_single_flight (env : RemoteEnv) (cfg : SyncConfig)
    (strategy : Strategy) (kp : String → Option String) (ai : String → Bool)
    (s : EngineState) (h : s.isSyncing = true) :
    SyncEngine.push env cfg s = (s, [], true) ∧
    SyncEngine.pull env cfg strategy kp ai s = (s, [], true) ∧
    SyncEngine.full env cfg strategy kp ai s = (s, [], true) ∧
    SyncEngine.pushAll env cfg s = (s, [], true) := by
  have hpush : SyncEngine.push env cfg s = (s, [], true) := by
    simp [SyncEngine.push, h]
  have hpull : SyncEngine.pull env cfg strategy kp ai s = (s, [], true) := by
    simp [SyncEngine.pull, h]
  refine ⟨hpush, hpull, ?_, by simp [SyncEngine.pushAll, h]⟩
  simp [SyncEngine.full, hpull, hpush]

/-- C7 witness: on a concrete mid-sync state, all four operations return
the state unchanged with an empty remote trace. -/
theorem isSyncing_single_flight_witness :
    SyncEngine.push envOk cfgAB sBusy = (sBusy, [], true) ∧
    SyncEngine.pull envOk cfgAB .lastWriteWins kpW aiW sBusy = (sBusy, [], true) ∧
    SyncEngine.full envOk cfgAB .lastWriteWins kpW aiW sBusy = (sBusy, [], true) ∧
    SyncEngine.pushAll envOk cfgAB sBusy = (sBusy, [], true) :=
  isSyncing_single_flight envOk cfgAB .lastWriteWins kpW aiW sBusy (by decide)

/-- C8: the query pipeline is applied in the fixed order where-clauses,
custom predicate filter, single-field sort, offset, then limit; `first()`
runs the query with `limit(1)` and takes the head; `count()` is the length
of the fully materialized result. -/
theorem query_pipeline_order (q : Query) (scan : List Record) :
    Query.toArray q scan =
      Query.limitStage q (Query.offsetStage q (Query.sortStage q
        (Query.filterStage q (Query.whereStage q scan)))) ∧
    Query.first q scan = ((q.limit 1).toArray scan).head? ∧
    Query.count q scan = (q.toArray scan).length := by
  refine ⟨?_, rfl, rfl⟩
  simp only [Query.toArray, Query.whereStage, Query.filterStage,
    Query.sortStage, Query.offsetStage, Query.limitStage]
  rcases Nat.eq_zero_or_pos q.offsetCount with h0 | h0
  · simp [h0]
  · simp [h0, Nat.pos_iff_ne_zero]

/-- C9 (amended): with the `_changes` store absent, `getPendingChanges`,
`markAsSynced` and `markMultipleAsSynced` raise the structural
upgrade-required error, but `clearSyncedChanges` silently does nothing and
`getChangesByTable` silently returns the empty list. -/
theorem changetracker_missing_store_behaviour (db : DB)
    (h : db.hasChangesStore = false) (tb : Option String) (tb2 : String)
    (cid : Nat) (ids : List Nat) :
    ChangeTracker.getPendingChanges db tb = .error .upgradeRequired ∧
    ChangeTracker.markAsSynced db cid = .error .upgradeRequired ∧
    ChangeTracker.markMultipleAsSynced db ids = .error .upgradeRequired ∧
    ChangeTracker.clearSyncedChanges db = .ok db ∧
    ChangeTracker.getChangesByTable db tb2 = .ok [] := by
  simp [ChangeTracker.getPendingChanges, ChangeTracker.markAsSynced,
    ChangeTracker.markMultipleAsSynced, ChangeTracker.clearSyncedChanges,
    ChangeTracker.getChangesByTable, h]

/-- C9 witness: the amended behaviour at a concrete store-less database. -/
theorem changetracker_missing_store_behaviour_witness :
    ChangeTracker.getPendingChanges dbNoStore none = .error .upgradeRequired ∧
    ChangeTracker.markAsSynced dbNoStore 0 = .error .upgradeRequired ∧
    ChangeTracker.markMultipleAsSynced dbNoStore [0, 1] = .error .upgradeRequired ∧
    ChangeTracker.clearSyncedChanges dbNoStore = .ok dbNoStore ∧
    ChangeTracker.getChangesByTable dbNoStore "users" = .ok [] :=
  changetracker_missing_store_behaviour dbNoStore (by decide) none "users" 0 [0, 1]

/-- C9 counterexample: against a database missing the `_changes` store,
`clearSyncedChanges` returns successfully without touching the (still
present, synced) entry, and `getChangesByTable` returns an empty list —
neither raises the upgrade-required error the claim asserts for every
operation. -/
theorem changetracker_missing_store_counterexample :
    ChangeTracker.clearSyncedChanges dbNoStore = .ok dbNoStore ∧
    ChangeTracker.getChangesByTable dbNoStore "users" = .ok [] := by
  constructor
  · decide
  · decide

/-- C4: with numeric `updated_at` timestamps T1/T2 (derived with the
documented created-at/now fallbacks), a gap strictly above the 1000 ms
threshold yields a `Conflict` whose `last-write-wins` resolution keeps
whichever record has the strictly larger timestamp, while a gap within the
threshold yields no conflict and the pull path keeps (puts) the remote
record. -/
theorem conflict_threshold_lww (l r : Record) (tb : String) (k : Value)
    (now t1 t2 : Int)
    (hl : getField l "updated_at" = .num t1) (hl0 : t1 ≠ 0)
    (hr : getField r "updated_at" = .num t2) (hr0 : t2 ≠ 0) :
    ConflictResolver.timestampOf l now = t1 ∧
    ConflictResolver.timestampOf r now = t2 ∧
    ((t1 - t2).natAbs > 1000 →
      ConflictResolver.detectConflict l r tb k now = some ⟨l, r, tb, k, t1, t2⟩ ∧
      t1 ≠ t2 ∧
      ConflictResolver.resolve ⟨l, r, tb, k, t1, t2⟩ .lastWriteWins =
        (if t1 < t2 then r else l)) ∧
    ((t1 - t2).natAbs ≤ 1000 →
      ConflictResolver.detectConflict l r tb k now = none) ∧
    (∀ (strategy : Strategy) (t : TableDef) (db : DB)
       (record localRec : Record) (db1 : DB) (res : Value),
      Table.get t db (getField record "id") = .ok (some localRec) →
      ConflictResolver.detectConflict localRec record t.name
        (getField record "id") (db.now : Int) = none →
      Table.put t db record none = .ok (db1, res) →
      SyncEngine.applyRemoteRecord strategy t db record = .ok db1) ∧
    (∀ (rec : Record) (now' : Int),
      truthy (getField rec "updated_at") = false →
      truthy (getField rec "created_at") = false →
      ConflictResolver.timestampOf rec now' = now') ∧
    (∀ (rec : Record) (now' : Int),
      truthy (getField rec "updated_at") = false →
      truthy (getField rec "created_at") = true →
      ConflictResolver.timestampOf rec now' =
        ConflictResolver.toTime (getField rec "created_at")) := by
  have ht1 : ConflictResolver.timestampOf l now = t1 := by
    simp [ConflictResolver.timestampOf, hl, truthy, ConflictResolver.toTime, hl0]
  have ht2 : ConflictResolver.timestampOf r now = t2 := by
    simp [ConflictResolver.timestampOf, hr, truthy, ConflictResolver.toTime, hr0]
  refine ⟨ht1, ht2, ?_, ?_, ?_, ?_, ?_⟩
  · intro hgt
    refine ⟨?_, by omega, ?_⟩
    · simp [ConflictResolver.detectConflict, ht1, ht2, hgt]
    · simp only [ConflictResolver.resolve]
  · intro hle
    simp only [ConflictResolver.detectConflict, ht1, ht2]
    rw [if_neg (by omega)]
  · intro strategy t db record localRec db1 res hget hnoc hput
    simp [SyncEngine.applyRemoteRecord, hget, hnoc, hput]
  · intro rec now' h1 h2
    simp [ConflictResolver.timestampOf, h1, h2]
  · intro rec now' h1 h2
    simp [ConflictResolver.timestampOf, h1, h2]

/-- C4 witness: a 4999 ms gap is a conflict resolved to the local record
(the strictly larger timestamp), and a 500 ms gap raises no conflict. -/
theorem conflict_threshold_lww_witness :
    ConflictResolver.detectConflict lW rW "users" (.num 1) 99 =
      some ⟨lW, rW, "users", .num 1, 5000, 1⟩ ∧
    ConflictResolver.resolve ⟨lW, rW, "users", .num 1, 5000, 1⟩ .lastWriteWins =
      (if (5000 : Int) < 1 then rW else lW) ∧
    ConflictResolver.detectConflict lW rW2 "users" (.num 1) 99 = none := by
  obtain ⟨-, -, hgt, -, -, -, -⟩ :=
    conflict_threshold_lww lW rW "users" (.num 1) 99 5000 1
      (by decide) (by decide) (by decide) (by decide)
  obtain ⟨hc, -, hres⟩ := hgt (by decide)
  obtain ⟨-, -, -, hle, -, -, -⟩ :=
    conflict_threshold_lww lW rW2 "users" (.num 1) 99 5000 4500
      (by decide) (by decide) (by decide) (by decide)
  exact ⟨hc, hres, hle (by decide)⟩

/-- C5: within one table's push batch the create and update records are
deduplicated by key keeping the last-seen value with an update always
winning over a create (the surviving value for a key is the last update
with that id, else the last create); the survivors go out as at most one
combined upsert call and the delete keys as at most one delete call; and
the batch is marked synced exactly on remote success (nothing is marked on
failure). -/
theorem push_batch_dedup_and_mark (env : RemoteEnv) (cfg : SyncConfig)
    (tn : String) (changes : List ChangeRecord) (db : DB) (k : Value) :
    ((recordsMapOf changes).lookup k =
      ((updateDatas changes).reverse.find? (fun r => definedId r == some k)).or
        ((createDatas changes).reverse.find? (fun r => definedId r == some k))) ∧
    ((SyncEngine.pushTableChanges env cfg tn changes db).ok = true →
      (SyncEngine.pushTableChanges env cfg tn changes db).calls =
        (SupabaseAdapter.push env cfg tn
          ((recordsMapOf changes).map (fun p => p.2))).1 ++
        (SupabaseAdapter.delete env cfg tn (deleteKeysOf changes)).1) ∧
    (∀ records : List Record,
      ((SupabaseAdapter.push env cfg tn records).1).length ≤ 1) ∧
    (∀ keys : List Value,
      ((SupabaseAdapter.delete env cfg tn keys).1).length ≤ 1) ∧
    ((SyncEngine.pushTableChanges env cfg tn changes db).ok = true →
      (SyncEngine.pushTableChanges env cfg tn changes db).db =
        { db with changes :=
            db.changes.map (ChangeTracker.markIf (changes.map (fun c => c.id))) }) ∧
    ((SyncEngine.pushTableChanges env cfg tn changes db).ok = false →
      (SyncEngine.pushTableChanges env cfg tn changes db).db = db) := by
  refine ⟨recordsMapOf_lookup changes k,
    pushTableChanges_calls_content env cfg tn changes db, ?_, ?_,
    fun h => ((pushTableChanges_spec env cfg tn changes db).1 h).1,
    (pushTableChanges_spec env cfg tn changes db).2.1⟩
  · intro records
    simp only [SupabaseAdapter.push]
    split <;> simp
  · intro keys
    simp only [SupabaseAdapter.delete]
    split <;> simp

theorem tableOrder_foldl_nodup (l : List ChangeRecord) :
    ∀ acc : List String, acc.Nodup →
    (l.foldl (fun acc c => if c.table ∈ acc then acc else acc ++ [c.table]) acc).Nodup := by
  induction l with
  | nil => intro acc h; exact h
  | cons c l ih =>
    intro acc h
    simp only [List.foldl_cons]
    by_cases hc : c.table ∈ acc
    · simp only [hc, if_pos]
      exact ih acc h
    · simp only [hc, if_neg, not_false_iff]
      refine ih _ (List.nodup_append.mpr ⟨h, List.nodup_singleton _, ?_⟩)
      intro a ha hab
      simp only [List.mem_singleton] at hab
      exact hc (hab ▸ ha)

/-- The push grouping order lists each table at most once. -/
theorem tableOrder_nodup (pending : List ChangeRecord) :
    (SyncEngine.tableOrder pending).Nodup :=
  tableOrder_foldl_nodup pending [] List.nodup_nil

/-- Every marked id belongs to a pending change of one of the tables. -/
theorem mem_idsForTables_exists {pending : List ChangeRecord} :
    ∀ {ts : List String} {i : Nat},
    i ∈ idsForTables pending ts → ∃ c ∈ pending, c.id = i ∧ c.table ∈ ts := by
  intro ts
  induction ts with
  | nil => intro i h; simp at h
  | cons t ts ih =>
    intro i h
    simp only [idsForTables, List.mem_append] at h
    rcases h with h | h
    · obtain ⟨c, hc, rfl⟩ := List.mem_map.mp h
      obtain ⟨hcp, hct⟩ := List.mem_filter.mp hc
      refine ⟨c, hcp, rfl, ?_⟩
      simp only [decide_eq_true_eq] at hct
      exact hct ▸ List.mem_cons_self t ts
    · obtain ⟨c, hc, hid, hts⟩ := ih h
      exact ⟨c, hc, hid, List.mem_cons_of_mem _ hts⟩

/-- C3 (amended): when a table's remote batch fails, `pushTableChanges`
logs and rethrows; `push()` has no per-table catch, so it aborts: the
tables after the failed one in the grouping order are not pushed (every
remote call of the failing step names only the failed table's remote
table), the failed and not-yet-pushed tables' ChangeRecords keep their
synced flags (in particular they stay unsynced), and only the tables
pushed before the failure were marked. -/
theorem push_table_failure_aborts (env : RemoteEnv) (cfg : SyncConfig)
    (s : EngineState) (pending : List ChangeRecord) (pre : List String)
    (t : String) (post : List String) (dbPre : DB) (callsPre : List RemoteCall)
    (hsync : s.isSyncing = false)
    (hpend : ChangeTracker.getPendingChanges s.db none = .ok pending)
    (hne : pending.length ≠ 0)
    (horder : SyncEngine.tableOrder pending = pre ++ t :: post)
    (hpre : SyncEngine.pushLoop env cfg pending pre s.db = (dbPre, callsPre, true))
    (hfail : (SyncEngine.pushTableChanges env cfg t
      (SyncEngine.batchOf pending t) dbPre).ok = false) :
    SyncEngine.push env cfg s =
      ({ s with db := dbPre },
       callsPre ++ (SyncEngine.pushTableChanges env cfg t
         (SyncEngine.batchOf pending t) dbPre).calls, false) ∧
    (∀ call ∈ (SyncEngine.pushTableChanges env cfg t
        (SyncEngine.batchOf pending t) dbPre).calls,
      call.tableName = getSupabaseTableName cfg t) ∧
    dbPre.changes = s.db.changes.map
      (ChangeTracker.markIf (idsForTables pending pre)) ∧
    ((s.db.changes.map (fun c => c.id)).Nodup →
      ∀ c ∈ s.db.changes, c.table ∈ t :: post →
        ChangeTracker.markIf (idsForTables pending pre) c = c) := by
  have hloopfail := pushLoop_head_fail env cfg pending t post dbPre hfail
  have happ := @pushLoop_append_ok env cfg pending pre (t :: post) s.db dbPre
    callsPre hpre
  have hdbPre : dbPre =
      { s.db with
        changes := List.map (ChangeTracker.markIf (idsForTables pending pre))
          s.db.changes } :=
    pushLoop_ok env cfg pending hpre
  have hstore : s.db.hasChangesStore = true := getPendingChanges_hasStore hpend
  have hpend' : pending = s.db.changes.filter (fun c => !c.synced) := by
    have h2 := hpend.symm.trans (getPendingChanges_ok hstore)
    exact (Except.ok.injEq _ _).mp h2
  refine ⟨?_, (pushTableChanges_spec env cfg t (SyncEngine.batchOf pending t)
    dbPre).2.2, by rw [hdbPre], ?_⟩
  · have hloop : SyncEngine.pushLoop env cfg pending
        (SyncEngine.tableOrder pending) s.db =
        (dbPre, callsPre ++ (SyncEngine.pushTableChanges env cfg t
          (SyncEngine.batchOf pending t) dbPre).calls, false) := by
      rw [horder, happ, hloopfail]
    simp only [SyncEngine.push, hsync, Bool.false_eq_true, if_false, hpend]
    rw [if_neg hne, hloop]
  · intro hnodup c hc hcts
    refine markIf_of_not_mem ?_
    intro hid
    obtain ⟨c1, hc1p, hcid, hc1pre⟩ := mem_idsForTables_exists hid
    have hc1 : c1 ∈ s.db.changes := by
      rw [hpend'] at hc1p
      exact (List.mem_filter.mp hc1p).1
    have hceq : c1 = c :=
      List.inj_on_of_nodup_map hnodup hc1 hc hcid
    have hnodupOrder := tableOrder_nodup pending
    rw [horder] at hnodupOrder
    obtain ⟨-, -, hdisj⟩ := List.nodup_append.mp hnodupOrder
    exact hdisj (hceq ▸ hc1pre) hcts

/-- C3 counterexample: with pending changes in tables `a` and `b` and a
remote that fails upserts to `a`'s remote table, `push()` returns the
error (it is not caught), the only remote call made is the upsert for
table `a` — table `b`'s batch is never sent — and the state is unchanged,
so both tables' ChangeRecords (not only the failed table's) remain
unsynced. -/
theorem push_failure_aborts_counterexample :
    SyncEngine.push envFailA cfgAB sAB =
      (sAB, [RemoteCall.upsert "ra" [[("id", .num 1)]]], false) ∧
    (sAB.db.changes.filter (fun c => !c.synced)).length = 2 := by
  constructor
  · decide
  · decide

/-- C3 witness: on the concrete two-table scenario with table `a` failing
first, `push` aborts with only `a`'s upsert attempted and no change
marked. -/
theorem push_table_failure_aborts_witness :
    SyncEngine.push envFailA cfgAB sAB =
      (sAB, [] ++ (SyncEngine.pushTableChanges envFailA cfgAB "a"
        (SyncEngine.batchOf [chA, chB] "a") sAB.db).calls, false) ∧
    (∀ call ∈ (SyncEngine.pushTableChanges envFailA cfgAB "a"
        (SyncEngine.batchOf [chA, chB] "a") sAB.db).calls,
      call.tableName = getSupabaseTableName cfgAB "a") := by
  have h := push_table_failure_aborts envFailA cfgAB sAB [chA, chB] [] "a" ["b"]
    sAB.db [] (by decide) (by decide) (by decide) (by decide) (by decide)
    (by decide)
  refine ⟨?_, h.2.1⟩
  have h1 := h.1
  simpa using h1

/-- A member of `Map.set m k r` is the new entry or an old one. -/
theorem mem_dedupInsert {m : List (Value × Record)} {k : Value} {r : Record}
    {p : Value × Record} (h : p ∈ dedupInsert m k r) : p = (k, r) ∨ p ∈ m := by
  unfold dedupInsert at h
  split at h
  · obtain ⟨q, hq, hfq⟩ := List.mem_map.mp h
    by_cases hqk : q.1 = k
    · left; rw [← hfq]; simp [hqk]
    · right; rw [← hfq]; simp [hqk]; exact hq
  · rcases List.mem_append.mp h with h | h
    · right; exact h
    · left; simpa using h

/-- Every entry of a `recordsMap` keeps its own defined id as its key:
records without a defined id never enter the map. -/
theorem foldl_insertById_defined :
    ∀ (l : List Record) (m : List (Value × Record)),
    (∀ q ∈ m, definedId q.2 = some q.1) →
    ∀ p ∈ l.foldl insertById m, definedId p.2 = some p.1 := by
  intro l
  induction l with
  | nil => intro m hm p hp; exact hm p hp
  | cons x l ih =>
    intro m hm p hp
    simp only [List.foldl_cons] at hp
    refine ih _ ?_ p hp
    intro q hq
    unfold insertById at hq
    cases hd : definedId x with
    | none => rw [hd] at hq; exact hm q hq
    | some k =>
      rw [hd] at hq
      rcases mem_dedupInsert hq with rfl | hq'
      · simpa using hd
      · exact hm q hq'

set_option maxHeartbeats 2000000 in
/-- Any upsert call made by `pushTableChanges` carries exactly the
deduplicated record list. -/
theorem pushTableChanges_upsert_content (env : RemoteEnv) (cfg : SyncConfig)
    (tn : String) (changes : List ChangeRecord) (db : DB) :
    ∀ sN rs, RemoteCall.upsert sN rs ∈
      (SyncEngine.pushTableChanges env cfg tn changes db).calls →
      rs = (recordsMapOf changes).map (fun p => p.2) := by
  by_cases hs : db.hasChangesStore = true
  · simp only [SyncEngine.pushTableChanges, SupabaseAdapter.push,
      SupabaseAdapter.delete, ChangeTracker.markMultipleAsSynced,
      recordsMapOf, createDatas, updateDatas, deleteKeysOf, hs]
    repeat' split
    all_goals intro sN rs hmem
    all_goals simp_all [-List.filter_eq_nil_iff, List.length_eq_zero]
  · simp only [Bool.not_eq_true] at hs
    simp only [SyncEngine.pushTableChanges, SupabaseAdapter.push,
      SupabaseAdapter.delete, ChangeTracker.markMultipleAsSynced,
      recordsMapOf, createDatas, updateDatas, deleteKeysOf, hs]
    repeat' split
    all_goals intro sN rs hmem
    all_goals simp_all [-List.filter_eq_nil_iff, List.length_eq_zero]

set_option maxHeartbeats 4000000 in
/-- `pushAllTable`: any upsert call carries the deduplicated full table
scan, and a success with a non-empty table either marks exactly the
table's pending ids or had no pending ids at all. -/
theorem pushAllTable_spec (env : RemoteEnv) (cfg : SyncConfig) (db : DB)
    (localTable : String) :
    (∀ sN rs, RemoteCall.upsert sN rs ∈
        (SyncEngine.pushAllTable env cfg db localTable).2.1 →
      rs = (((rowsOf db localTable).map (fun p => p.2)).foldl insertById
        []).map (fun p => p.2)) ∧
    ((SyncEngine.pushAllTable env cfg db localTable).2.2 = true →
      rowsOf db localTable ≠ [] →
      ((SyncEngine.pushAllTable env cfg db localTable).1.changes =
          db.changes.map (ChangeTracker.markIf
            ((pendingOf db localTable).map (fun c => c.id))) ∧
        0 < (pendingOf db localTable).length) ∨
      ((SyncEngine.pushAllTable env cfg db localTable).1 = db ∧
        (pendingOf db localTable).length = 0)) := by
  by_cases hs : db.hasChangesStore = true
  · simp only [SyncEngine.pushAllTable, SupabaseAdapter.push,
      ChangeTracker.getPendingChanges, ChangeTracker.markMultipleAsSynced,
      pendingOf, hs]
    repeat' split
    all_goals simp_all [-List.filter_eq_nil_iff, List.length_eq_zero]
    all_goals try (rename_i hdb1; intro hrows9; exact Or.inl (by rw [← hdb1]))
  · simp only [Bool.not_eq_true] at hs
    simp only [SyncEngine.pushAllTable, SupabaseAdapter.push,
      ChangeTracker.getPendingChanges, ChangeTracker.markMultipleAsSynced,
      pendingOf, hs]
    repeat' split
    all_goals simp_all [-List.filter_eq_nil_iff, List.length_eq_zero]

/-- C10: in both push (via `pushTableChanges`) and `pushAll`, a record
whose `id` is undefined or null is silently excluded from the batch sent
to the remote backend (every entry of the dedup map keeps a defined id and
every upsert call carries only such records), yet on success the
corresponding pending ChangeRecords are still marked synced — a change
whose payload lacks an id is dropped from delivery while being recorded as
synced. -/
theorem missing_id_dropped_but_marked (env : RemoteEnv) (cfg : SyncConfig)
    (tn : String) (changes : List ChangeRecord) (db : DB)
    (localTable : String) :
    (∀ p ∈ recordsMapOf changes, definedId p.2 = some p.1) ∧
    (∀ sN rs, RemoteCall.upsert sN rs ∈
        (SyncEngine.pushTableChanges env cfg tn changes db).calls →
      ∀ rec ∈ rs, definedId rec ≠ none) ∧
    ((SyncEngine.pushTableChanges env cfg tn changes db).ok = true →
      ∀ c' ∈ (SyncEngine.pushTableChanges env cfg tn changes db).db.changes,
        c'.id ∈ changes.map (fun c => c.id) → c'.synced = true) ∧
    (∀ sN rs, RemoteCall.upsert sN rs ∈
        (SyncEngine.pushAllTable env cfg db localTable).2.1 →
      ∀ rec ∈ rs, definedId rec ≠ none) ∧
    ((SyncEngine.pushAllTable env cfg db localTable).2.2 = true →
      rowsOf db localTable ≠ [] →
      ∀ c' ∈ (SyncEngine.pushAllTable env cfg db localTable).1.changes,
        c'.table = localTable → c'.synced = true) := by
  have hdef : ∀ p ∈ recordsMapOf changes, definedId p.2 = some p.1 := by
    refine foldl_insertById_defined _ _ ?_
    exact foldl_insertById_defined _ [] (by simp)
  refine ⟨hdef, ?_, ?_, ?_, ?_⟩
  · intro sN rs hmem rec hrec
    rw [pushTableChanges_upsert_content env cfg tn changes db sN rs hmem] at hrec
    obtain ⟨p, hp, rfl⟩ := List.mem_map.mp hrec
    simp [hdef p hp]
  · intro hok c' hc' hid
    have hdb := ((pushTableChanges_spec env cfg tn changes db).1 hok).1
    rw [hdb] at hc'
    obtain ⟨c0, hc0, rfl⟩ := List.mem_map.mp hc'
    rw [markIf_id] at hid
    exact markIf_synced_of_mem hid
  · intro sN rs hmem rec hrec
    rw [(pushAllTable_spec env cfg db localTable).1 sN rs hmem] at hrec
    obtain ⟨p, hp, rfl⟩ := List.mem_map.mp hrec
    have hd := foldl_insertById_defined ((rowsOf db localTable).map
      (fun p => p.2)) [] (by simp) p hp
    simp [hd]
  · intro hok hrows c' hc' htbl
    rcases (pushAllTable_spec env cfg db localTable).2 hok hrows with
      ⟨hch, hpos⟩ | ⟨hdb, hzero⟩
    · rw [hch] at hc'
      obtain ⟨c0, hc0, rfl⟩ := List.mem_map.mp hc'
      by_cases hsy : c0.synced = true
      · exact markIf_synced_of_synced hsy
      · refine markIf_synced_of_mem (List.mem_map_of_mem _ ?_)
        rw [markIf_table] at htbl
        exact List.mem_filter.mpr
          ⟨List.mem_filter.mpr ⟨hc0, by simp [hsy]⟩, by simp [htbl]⟩
    · rw [hdb] at hc'
      by_cases hsy : c'.synced = true
      · exact hsy
      · exfalso
        have hcp : c' ∈ pendingOf db localTable :=
          List.mem_filter.mpr
            ⟨List.mem_filter.mpr ⟨hc', by simp [hsy]⟩, by simp [htbl]⟩
        rw [List.length_eq_zero] at hzero
        simp [hzero] at hcp

/-- C10 witness: pushing the batch whose only change has no payload id
makes no remote call at all, yet the change record ends up synced. -/
theorem missing_id_dropped_but_marked_witness :
    (SyncEngine.pushTableChanges envOk cfgAB "a" [chNoId] dbNoId).calls = [] ∧
    (ChangeRecord.mk 50 "a" .undefined .create
      (some [("name", .str "X")]) 1 true).synced = true :=
  ⟨by decide,
   (missing_id_dropped_but_marked envOk cfgAB "a" [chNoId] dbNoId "a").2.2.1
     (by decide) ⟨50, "a", .undefined, .create, some [("name", .str "X")], 1, true⟩
     (by decide) (by decide)⟩

/-- Applying one pulled record, when it succeeds, appends exactly one
unsynced `update` entry (the write goes through the change-tracked
`Table.put` in every branch). -/
theorem applyRemoteRecord_appends {strategy : Strategy} {t : TableDef}
    {db : DB} {record : Record} {db1 : DB}
    (h : SyncEngine.applyRemoteRecord strategy t db record = .ok db1) :
    ∃ c : ChangeRecord, db1.changes = db.changes ++ [c] ∧ c.table = t.name ∧
      c.operation = .update ∧ c.synced = false := by
  simp only [SyncEngine.applyRemoteRecord] at h
  obtain ⟨local?, hget, h⟩ := except_bind_ok h
  match local? with
  | some localRec =>
    simp only at h
    split at h
    · obtain ⟨⟨db2, res⟩, hput, h⟩ := except_bind_ok h
      simp only [pure, Except.pure, Except.ok.injEq] at h
      obtain rfl := h.symm
      exact put_appends_one_update hput
    · obtain ⟨⟨db2, res⟩, hput, h⟩ := except_bind_ok h
      simp only [pure, Except.pure, Except.ok.injEq] at h
      obtain rfl := h.symm
      exact put_appends_one_update hput
  | none =>
    simp only at h
    obtain ⟨⟨db2, res⟩, hput, h⟩ := except_bind_ok h
    simp only [pure, Except.pure, Except.ok.injEq] at h
    obtain rfl := h.symm
    exact put_appends_one_update hput

/-- A fully successful pull loop for one table appends exactly one
unsynced `update` entry per remote record. -/
theorem applyRemoteRecords_appends {strategy : Strategy} {t : TableDef} :
    ∀ {records : List Record} {db db1 : DB},
    SyncEngine.applyRemoteRecords strategy t db records = (db1, true) →
    ∃ newRecs : List ChangeRecord, db1.changes = db.changes ++ newRecs ∧
      newRecs.length = records.length ∧
      ∀ c ∈ newRecs, c.table = t.name ∧ c.operation = .update ∧
        c.synced = false := by
  intro records
  induction records with
  | nil =>
    intro db db1 h
    simp only [SyncEngine.applyRemoteRecords, Prod.mk.injEq] at h
    obtain ⟨rfl, -⟩ := h
    exact ⟨[], by simp, rfl, by simp⟩
  | cons record rest ih =>
    intro db db1 h
    simp only [SyncEngine.applyRemoteRecords] at h
    split at h
    · next db2 happly =>
      obtain ⟨c, hc, hct, hco, hcs⟩ := applyRemoteRecord_appends happly
      obtain ⟨newRecs, hn, hlen, hall⟩ := ih h
      refine ⟨c :: newRecs, ?_, by simp [hlen], ?_⟩
      · simp [hn, hc]
      · intro c' hc'
        rcases List.mem_cons.mp hc' with rfl | hmem
        · exact ⟨hct, hco, hcs⟩
        · exact hall c' hmem
    · simp only [Prod.mk.injEq] at h
      obtain ⟨-, h2⟩ := h
      simp at h2

/-- C2 (amended): `pull()` writes each incoming record through the
change-tracked `Table.put`; when a table's pull succeeds, its local
database afterwards is the one produced by the record loop, and that loop
has appended exactly one pending (`synced = false`) `update` ChangeRecord
per remote record — pulled data IS re-queued for a later push rather than
leaving the pending set unchanged. -/
theorem pull_requeues_pulled_records (env : RemoteEnv) (cfg : SyncConfig)
    (strategy : Strategy) (kp : String → Option String) (ai : String → Bool)
    (s : EngineState) (localTable : String) (remoteData : List Record)
    (db1 : DB)
    (hpull : ∀ x, env.pullData (getSupabaseTableName cfg localTable) x =
      .ok remoteData)
    (happly : SyncEngine.applyRemoteRecords strategy
      ⟨localTable, kp localTable, ai localTable⟩ s.db remoteData = (db1, true)) :
    (SyncEngine.pullTable env cfg strategy kp ai s localTable).1.db = db1 ∧
    ∃ newRecs : List ChangeRecord, db1.changes = s.db.changes ++ newRecs ∧
      newRecs.length = remoteData.length ∧
      ∀ c ∈ newRecs, c.table = localTable ∧ c.operation = .update ∧
        c.synced = false := by
  constructor
  · simp only [SyncEngine.pullTable, hpull, happly]
    split
    · simp_all
    · split
      · simp only [SyncEngine.setErrorMeta]
        split <;> simp [setSyncMetadata]
      · simp [setSyncMetadata]
  · exact applyRemoteRecords_appends happly

/-- C2 counterexample: pulling one remote record into an empty two-table
state leaves one pending (unsynced) ChangeRecord where there were zero
before — the pull write did not bypass the change-log recorder and the
pulled record is re-queued for push. -/
theorem pull_requeues_counterexample :
    ((SyncEngine.pull envPull cfgAB .lastWriteWins kpW aiW sEmpty).1.db.changes.filter
      (fun c => !c.synced)).length = 1 ∧
    (sEmpty.db.changes.filter (fun c => !c.synced)).length = 0 := by
  constructor
  · decide
  · decide

/-- C2 witness: pulling the single remote record of table `a` produces
`dbPulled`, whose change log has exactly one new pending `update` entry. -/
theorem pull_requeues_pulled_records_witness :
    (SyncEngine.pullTable envPull cfgAB .lastWriteWins kpW aiW sEmpty "a").1.db =
      dbPulled ∧
    ∃ newRecs : List ChangeRecord,
      dbPulled.changes = sEmpty.db.changes ++ newRecs ∧
      newRecs.length = [[("id", Value.num 7), ("name", Value.str "R")]].length ∧
      ∀ c ∈ newRecs, c.table = "a" ∧ c.operation = .update ∧ c.synced = false :=
  pull_requeues_pulled_records envPull cfgAB .lastWriteWins kpW aiW sEmpty "a"
    [[("id", .num 7), ("name", .str "R")]] dbPulled
    (fun _ => rfl) (by decide)

/-- C5 witness: on the concrete create/update/delete batch the update's
value survives dedup for the shared key, and a successful push marks the
whole batch synced. -/
theorem push_batch_dedup_and_mark_witness :
    ((recordsMapOf batchW).lookup (.num 1) =
      ((updateDatas batchW).reverse.find?
        (fun r => definedId r == some (.num 1))).or
        ((createDatas batchW).reverse.find?
          (fun r => definedId r == some (.num 1)))) ∧
    (SyncEngine.pushTableChanges envOk cfgAB "a" batchW dbBatch).db =
      { dbBatch with changes :=
          dbBatch.changes.map (ChangeTracker.markIf (batchW.map (fun c => c.id))) } :=
  ⟨(push_batch_dedup_and_mark envOk cfgAB "a" batchW dbBatch (.num 1)).1,
   (push_batch_dedup_and_mark envOk cfgAB "a" batchW dbBatch (.num 1)).2.2.2.2.1
     (by decide)⟩

end Localbase
